import Mathlib

/-! The analog distance sensor of the maze simulator (`src/sim/Sensor.cpp`).

A shallow embedding of `mms::Sensor`.  Finite `double` values are elements of
a linearly ordered field `α` (exact arithmetic, `ℚ` for evaluation and `ℝ`
where the trigonometry matters); the two divisions of the file are modelled
with the IEEE 754 results for a zero divisor, and the counter of the sampling
loop is also followed with every operation rounded to a `double`.  Code of the
repository that is not part of the embedded file (`Coordinate::Polar`,
`Polygon::area`, `GeometryUtilities::castRay`,
`GeometryUtilities::createCirclePolygon`, the parameters `P()`) is a field of
`Geometry`.
-/

set_option linter.dupNamespace false

namespace mms

/-! ## Values of type `double` -/

/-- A `double`: a finite value, or one of the IEEE 754 special values. -/
inductive Double (α : Type) where
  | finite (x : α)
  | posInf
  | negInf
  | nan
  deriving DecidableEq, Repr

namespace Double

variable {α : Type} [LinearOrderedField α]

/-- The quotient `a / b` of two finite doubles.  A zero divisor is `+0.0`
(both divisors of `Sensor.cpp` are: an unsigned area and an `int` converted to
`double`), so the quotient is `±∞` by the sign of `a`, and `0.0 / 0.0` is NaN. -/
def div (a b : α) : Double α :=
  if b = 0 then
    if a = 0 then nan else if 0 < a then posInf else negInf
  else finite (a / b)

/-- The difference `a - b`. -/
def sub : Double α → Double α → Double α
  | finite a, finite b => finite (a - b)
  | nan, _ => nan
  | _, nan => nan
  | posInf, posInf => nan
  | negInf, negInf => nan
  | posInf, _ => posInf
  | negInf, _ => negInf
  | finite _, posInf => negInf
  | finite _, negInf => posInf

/-- The comparison `a < b`; false as soon as one side is NaN. -/
def lt : Double α → Double α → Bool
  | nan, _ => false
  | _, nan => false
  | finite a, finite b => decide (a < b)
  | negInf, negInf => false
  | negInf, _ => true
  | _, negInf => false
  | posInf, _ => false
  | finite _, posInf => true

/-- The comparison `a <= b`; false as soon as one side is NaN. -/
def le : Double α → Double α → Bool
  | nan, _ => false
  | _, nan => false
  | finite a, finite b => decide (a ≤ b)
  | negInf, _ => true
  | _, posInf => true
  | posInf, _ => false
  | finite _, negInf => false

/-- The function `std::max(a, b)`, which is `(a < b) ? b : a`. -/
def max (a b : Double α) : Double α :=
  if lt a b then b else a

end Double

/-! ## Geometric primitives -/

/-- A `Coordinate`: a point of the plane. -/
structure Coordinate (α : Type) where
  x : α
  y : α
  deriving DecidableEq, Repr

/-- Modelled from the spec: `Coordinate::operator+`, absent from the sources;
the translation of a point by an offset, component by component. -/
instance {α : Type} [Add α] : Add (Coordinate α) :=
  ⟨fun a b => ⟨a.x + b.x, a.y + b.y⟩⟩

/-- Modelled from the spec: `Coordinate::Polar(distance, angle)`, absent from
the sources; the point reached by moving `distance` along `angle` from the
origin of the coordinate system.  The cosine and sine are arguments. -/
def Coordinate.Polar {α : Type} [Mul α] (cos sin : α → α) (distance angle : α) :
    Coordinate α :=
  ⟨distance * cos angle, distance * sin angle⟩

/-- A `Polygon`: the ordered vertices of a closed loop. -/
structure Polygon (α : Type) where
  m_vertices : List (Coordinate α)
  deriving DecidableEq, Repr

/-- The cross product `x1 * y2 - x2 * y1` of two vertices. -/
def cross {α : Type} [LinearOrderedField α] (p q : Coordinate α) : α :=
  p.x * q.y - q.x * p.y

/-- Modelled from the spec: `Polygon::area()`, absent from the sources; the
unsigned area of the closed vertex loop, the sum of the cross products of
consecutive vertex pairs (the last vertex paired with the first) divided by
two. -/
def Polygon.area {α : Type} [LinearOrderedField α] (p : Polygon α) : α :=
  |(List.zipWith cross p.m_vertices (p.m_vertices.rotate 1)).sum| / 2

/-- The collaborators of `Sensor.cpp` whose code is not part of it. -/
structure Geometry (α : Type) (Maze : Type) where
  /-- The function `Coordinate::Polar(distance, angle)`. -/
  Polar : α → α → Coordinate α
  /-- The function `GeometryUtilities::castRay(start, end, maze, halfWallWidth, tileLength)`. -/
  castRay : Coordinate α → Coordinate α → Maze → α → α → Coordinate α
  /-- The function `GeometryUtilities::createCirclePolygon(position, radius, numberOfEdges)`. -/
  createCirclePolygon : Coordinate α → α → ℤ → Polygon α
  /-- The value `Polygon::area().getMetersSquared()`. -/
  area : Polygon α → α
  /-- The parameter `P()->wallWidth()`. -/
  wallWidth : α
  /-- The parameter `P()->wallLength()`. -/
  wallLength : α

/-- The geometry with the polar offset and the shoelace area of the spec. -/
def Geometry.standard {α Maze : Type} [LinearOrderedField α] (cos sin : α → α)
    (castRay : Coordinate α → Coordinate α → Maze → α → α → Coordinate α)
    (createCirclePolygon : Coordinate α → α → ℤ → Polygon α)
    (wallWidth wallLength : α) : Geometry α Maze where
  Polar := Coordinate.Polar cos sin
  castRay := castRay
  createCirclePolygon := createCirclePolygon
  area := Polygon.area
  wallWidth := wallWidth
  wallLength := wallLength

/-! ## The sensor -/

/-- The members of a `Sensor`. -/
structure Sensor (α : Type) where
  m_range : α
  m_halfWidth : α
  m_initialPosition : Coordinate α
  m_initialDirection : α
  m_numberOfViewEdgePoints : ℤ
  m_initialPolygon : Polygon α
  m_initialViewPolygon : Polygon α
  m_currentReading : Double α
  deriving DecidableEq, Repr

/-- How a call that may stop the process ends. -/
inductive Outcome (σ : Type) where
  /-- The call returned, leaving the state `s`. -/
  | returned (s : σ)
  /-- An assertion of the given source line failed and called `exit(1)`. -/
  | exited (line : ℕ)
  /-- The sampling loop was still running when the fuel ran out. -/
  | running
  deriving DecidableEq, Repr

section
variable {α Maze : Type} [LinearOrderedField α]

/-- The loop `for (double i = start; i <= 1; i += step) polygon.push_back(body(i))`
run for at most `fuel` passes; `none` when the loop is still running then. -/
def sampleLoop (body : α → Coordinate α) (step : α) :
    ℕ → α → List (Coordinate α) → Option (List (Coordinate α))
  | 0, i, polygon => if i ≤ 1 then none else some polygon
  | fuel + 1, i, polygon =>
    if i ≤ 1 then sampleLoop body step fuel (i + step) (polygon ++ [body i])
    else some polygon

/-- The whole sampling loop with its increment `2.0 / (numberOfViewEdgePoints - 1)`.
When the increment is `+∞` the body runs once at `i = -1` and `i` is `+∞`
at the next test.  No other special value is a quotient of `2.0`. -/
def sampleRays (body : α → Coordinate α) (numberOfViewEdgePoints : ℤ) (fuel : ℕ)
    (polygon : List (Coordinate α)) : Option (List (Coordinate α)) :=
  match Double.div 2 (((numberOfViewEdgePoints - 1 : ℤ) : α)) with
  | Double.finite step => sampleLoop body step fuel (-1) polygon
  | Double.posInf => some (polygon ++ [body (-1)])
  | _ => none

namespace Sensor

/-- The member function `Sensor::getInitialPosition`. -/
def getInitialPosition (s : Sensor α) : Coordinate α := s.m_initialPosition

/-- The member function `Sensor::getInitialDirection`. -/
def getInitialDirection (s : Sensor α) : α := s.m_initialDirection

/-- The member function `Sensor::getInitialPolygon`. -/
def getInitialPolygon (s : Sensor α) : Polygon α := s.m_initialPolygon

/-- The member function `Sensor::getInitialViewPolygon`. -/
def getInitialViewPolygon (s : Sensor α) : Polygon α := s.m_initialViewPolygon

/-- The member function `Sensor::read`. -/
def read (s : Sensor α) : Double α := s.m_currentReading

/-- The member function `Sensor::getViewPolygon`: the apex, then the end of each cast ray. -/
def getViewPolygon (G : Geometry α Maze) (fuel : ℕ) (s : Sensor α)
    (currentPosition : Coordinate α) (currentDirection : α) (maze : Maze) :
    Option (Polygon α) :=
  let halfWallWidth := G.wallWidth / 2
  let tileLength := G.wallLength + G.wallWidth
  (sampleRays
    (fun i =>
      G.castRay currentPosition
        (currentPosition + G.Polar s.m_range (currentDirection + s.m_halfWidth * i))
        maze halfWallWidth tileLength)
    s.m_numberOfViewEdgePoints fuel [currentPosition]).map Polygon.mk

/-- The member function `Sensor::getCurrentViewPolygon`. -/
def getCurrentViewPolygon (G : Geometry α Maze) (fuel : ℕ) (s : Sensor α)
    (currentPosition : Coordinate α) (currentDirection : α) (maze : Maze) :
    Option (Polygon α) :=
  getViewPolygon G fuel s currentPosition currentDirection maze

/-- The two assertions that end `Sensor::updateReading` (lines 92 and 93). -/
def checkReading (s : Sensor α) : Outcome (Sensor α) :=
  if !(Double.le (Double.finite 0) s.m_currentReading) then Outcome.exited 92
  else if !(Double.le s.m_currentReading (Double.finite 1)) then Outcome.exited 93
  else Outcome.returned s

/-- The member function `Sensor::updateReading`. -/
def updateReading (G : Geometry α Maze) (fuel : ℕ) (s : Sensor α)
    (currentPosition : Coordinate α) (currentDirection : α) (maze : Maze) :
    Outcome (Sensor α) :=
  match getViewPolygon G fuel s currentPosition currentDirection maze with
  | none => Outcome.running
  | some view =>
    checkReading
      { s with
        m_currentReading :=
          Double.max (Double.finite 0)
            (Double.sub (Double.finite 1)
              (Double.div (G.area view) (G.area (getInitialViewPolygon s)))) }

/-- The constructor `Sensor::Sensor(radius, range, halfWidth, position, direction, maze)`.
`m_currentReading` has no initialiser; `uninitialised` is what it holds before
the update that ends the constructor. -/
def Sensor (G : Geometry α Maze) (fuel : ℕ) (uninitialised : Double α)
    (radius range halfWidth : α) (position : Coordinate α) (direction : α)
    (maze : Maze) : Outcome (mms.Sensor α) :=
  let m_numberOfViewEdgePoints : ℤ := 8
  match sampleRays
      (fun i => G.Polar range (halfWidth * i + direction) + position)
      m_numberOfViewEdgePoints fuel [position] with
  | none => Outcome.running
  | some view =>
    updateReading G fuel
      { m_range := range
        m_halfWidth := halfWidth
        m_initialPosition := position
        m_initialDirection := direction
        m_numberOfViewEdgePoints := m_numberOfViewEdgePoints
        m_initialPolygon := G.createCirclePolygon position radius 8
        m_initialViewPolygon := Polygon.mk view
        m_currentReading := uninitialised }
      position direction maze

end Sensor

/-- The per-tick calls of the owning agent: `updateReading` for each pose and
maze of the list in turn, stopping at the first call that does not return. -/
def updateReadings (G : Geometry α Maze) (fuel : ℕ) :
    Sensor α → List (Coordinate α × α × Maze) → Outcome (Sensor α)
  | s, [] => Outcome.returned s
  | s, (position, direction, maze) :: ticks =>
    match Sensor.updateReading G fuel s position direction maze with
    | Outcome.returned s' => updateReadings G fuel s' ticks
    | Outcome.exited line => Outcome.exited line
    | Outcome.running => Outcome.running

end

/-! ## The loop counter in binary64 -/

/-- Rounding to the nearest integer, ties to the even one. -/
def roundTiesToEven (q : ℚ) : ℤ :=
  if q - ⌊q⌋ < 1 / 2 then ⌊q⌋
  else if 1 / 2 < q - ⌊q⌋ then ⌊q⌋ + 1
  else if ⌊q⌋ % 2 = 0 then ⌊q⌋ else ⌊q⌋ + 1

/-- The `double` nearest to `q`: 53 significant bits, ties to even, in the
range of the normal numbers. -/
def binary64 (q : ℚ) : ℚ :=
  if q = 0 then 0
  else (roundTiesToEven (q / 2 ^ (Int.log 2 |q| - 52)) : ℚ) * 2 ^ (Int.log 2 |q| - 52)

/-- The counter `i` of the sampling loop of a sensor with 8 view edge points
after `k` increments `i += 2.0 / 7`, every operation rounded to a `double`. -/
def counter64 : ℕ → ℚ
  | 0 => -1
  | k + 1 => binary64 (counter64 k + binary64 (2 / 7))

/-! ## Example surroundings -/

/-- The surroundings of the examples: no wall within range of the sensor, or
the sensor embedded in a wall. -/
inductive Surroundings where
  | clear
  | embedded
  deriving DecidableEq, Repr

section
variable {α : Type} [LinearOrderedField α]

/-- A ray caster for the two example surroundings, following the contract of
`castRay`: the candidate endpoint unchanged when no wall is struck, the origin
when the ray is blocked at distance zero. -/
def exampleCastRay (origin candidateEndpoint : Coordinate α) :
    Surroundings → α → α → Coordinate α
  | Surroundings.clear, _, _ => candidateEndpoint
  | Surroundings.embedded, _, _ => origin

/-- A defective ray caster: it returns the point twice as far from the origin
as the candidate endpoint. -/
def overshootCastRay (origin candidateEndpoint : Coordinate α) (_ : Surroundings)
    (_ _ : α) : Coordinate α :=
  ⟨2 * candidateEndpoint.x - origin.x, 2 * candidateEndpoint.y - origin.y⟩

/-- The geometry of the examples: the polar offset and shoelace area of the
spec, a wall width of 12 mm and a wall length of 168 mm; the body polygon, which
no reading depends on, is reduced to its centre. -/
def exampleGeometry (cos sin : α → α)
    (castRay : Coordinate α → Coordinate α → Surroundings → α → α → Coordinate α) :
    Geometry α Surroundings :=
  Geometry.standard cos sin castRay (fun position _ _ => ⟨[position]⟩) (3 / 250) (21 / 125)

/-- The sensor of the examples, of range 1 and half-width 1, mounted at the
origin along direction 0, holding the given reading. -/
def exampleSensor (cos sin : α → α) (reading : α) : Sensor α where
  m_range := 1
  m_halfWidth := 1
  m_initialPosition := ⟨0, 0⟩
  m_initialDirection := 0
  m_numberOfViewEdgePoints := 8
  m_initialPolygon := ⟨[⟨0, 0⟩]⟩
  m_initialViewPolygon :=
    ⟨⟨0, 0⟩ :: (List.range 8).map (fun k : ℕ =>
      Coordinate.Polar cos sin 1 (1 * (-1 + 2 * (k : α) / 7) + 0) + ⟨0, 0⟩)⟩
  m_currentReading := Double.finite reading

end

/-! ## The sampling loop -/

section
variable {α Maze : Type} [LinearOrderedField α]

/-- The loop adds exactly the samples `body (i + k * step)`, `k < m`, when `m`
is the first index whose counter exceeds `1`, with any fuel of at least `m`. -/
theorem sampleLoop_eq (body : α → Coordinate α) (step : α) (m : ℕ) :
    ∀ (fuel : ℕ) (i : α) (polygon : List (Coordinate α)),
      (∀ k : ℕ, k < m → i + (k : α) * step ≤ 1) → ¬ (i + (m : α) * step ≤ 1) → m ≤ fuel →
      sampleLoop body step fuel i polygon
        = some (polygon ++ (List.range m).map (fun k : ℕ => body (i + (k : α) * step))) := by
  induction m with
  | zero =>
    intro fuel i polygon _ hstop _
    have hi : ¬ (i ≤ 1) := by simpa using hstop
    cases fuel <;> simp [sampleLoop, hi]
  | succ m ih =>
    intro fuel i polygon hle hstop hfuel
    obtain ⟨fuel, rfl⟩ : ∃ f, fuel = f + 1 := ⟨fuel - 1, by omega⟩
    have hi : i ≤ 1 := by simpa using hle 0 (Nat.succ_pos m)
    have hle' : ∀ k : ℕ, k < m → (i + step) + (k : α) * step ≤ 1 := by
      intro k hk
      have := hle (k + 1) (Nat.succ_lt_succ hk)
      push_cast at this
      linarith
    have hstop' : ¬ ((i + step) + (m : α) * step ≤ 1) := by
      intro h
      apply hstop
      push_cast
      linarith
    rw [sampleLoop, if_pos hi, ih fuel (i + step) (polygon ++ [body i]) hle' hstop' (by omega)]
    rw [List.range_succ_eq_map, List.map_cons, List.map_map, List.append_assoc]
    congr 2
    simp only [List.singleton_append, Nat.cast_zero, zero_mul, add_zero, List.cons.injEq,
      true_and]
    apply List.map_congr_left
    intro k _
    simp only [Function.comp_apply, Nat.cast_succ]
    congr 1
    ring

/-- With two view edge points or more the increment is `2 / (n - 1)`. -/
theorem sampleRays_eq (body : α → Coordinate α) (N fuel : ℕ) (polygon : List (Coordinate α))
    (hfuel : N + 2 ≤ fuel) :
    sampleRays body ((N : ℤ) + 2) fuel polygon
      = some (polygon ++
          (List.range (N + 2)).map (fun k : ℕ => body (-1 + (k : α) * (2 / ((N : α) + 1))))) := by
  have hcast : (((N : ℤ) + 2 - 1 : ℤ) : α) = (N : α) + 1 := by push_cast; ring
  have hpos : (0 : α) < (N : α) + 1 := by positivity
  unfold sampleRays
  rw [hcast, Double.div, if_neg hpos.ne.symm]
  refine sampleLoop_eq body _ (N + 2) fuel (-1) polygon ?_ ?_ hfuel
  · intro k hk
    have hk' : (k : α) ≤ (N : α) + 1 := by exact_mod_cast Nat.lt_succ_iff.mp hk
    have : (k : α) * (2 / ((N : α) + 1)) ≤ 2 := by
      rw [mul_div_assoc', div_le_iff₀ hpos]
      linarith
    linarith
  · intro h
    have : (((N + 2 : ℕ) : α)) * (2 / ((N : α) + 1)) ≤ 2 := by linarith
    rw [mul_div_assoc', div_le_iff₀ hpos] at this
    push_cast at this
    linarith

/-- With one view edge point the increment is `+∞` and there is one sample. -/
theorem sampleRays_one (body : α → Coordinate α) (fuel : ℕ) (polygon : List (Coordinate α)) :
    sampleRays body 1 fuel polygon = some (polygon ++ [body (-1)]) := by
  simp [sampleRays, Double.div]

/-- The sampling loop ends for every positive number of view edge points, and
the counters of its samples do not depend on the body. -/
theorem sampleRays_total (n : ℤ) (fuel : ℕ) (hn : 1 ≤ n) (hfuel : n ≤ fuel) :
    ∃ counters : List α, ∀ (body : α → Coordinate α) (polygon : List (Coordinate α)),
      sampleRays body n fuel polygon = some (polygon ++ counters.map body) := by
  rcases eq_or_lt_of_le hn with h1 | h2
  · subst h1
    exact ⟨[-1], fun body polygon => by simpa using sampleRays_one body fuel polygon⟩
  · obtain ⟨N, rfl⟩ : ∃ N : ℕ, n = (N : ℤ) + 2 := ⟨(n - 2).toNat, by omega⟩
    refine ⟨(List.range (N + 2)).map (fun k : ℕ => -1 + (k : α) * (2 / ((N : α) + 1))), ?_⟩
    intro body polygon
    rw [sampleRays_eq body N fuel polygon (by omega), List.map_map]
    rfl

/-- The eight samples of the loop of a sensor with eight view edge points. -/
theorem sampleRays_eight (body : α → Coordinate α) (fuel : ℕ) (polygon : List (Coordinate α))
    (hfuel : 8 ≤ fuel) :
    sampleRays body 8 fuel polygon
      = some (polygon ++ (List.range 8).map (fun k : ℕ => body (-1 + 2 * (k : α) / 7))) := by
  have h := sampleRays_eq body 6 fuel polygon hfuel
  have h7 : ((6 : ℕ) : α) + 1 = 7 := by norm_num
  rw [h7] at h
  have hfun : (fun k : ℕ => body (-1 + (k : α) * (2 / 7)))
      = (fun k : ℕ => body (-1 + 2 * (k : α) / 7)) := by
    funext k
    congr 1
    ring
  rw [hfun] at h
  exact h

end

/-! ## The reading -/

section
variable {α Maze : Type} [LinearOrderedField α]

/-- The loop is still running after `fuel` passes when the counter has not
exceeded `1` by then. -/
theorem sampleLoop_running (body : α → Coordinate α) (step : α) :
    ∀ (fuel : ℕ) (i : α) (polygon : List (Coordinate α)),
      (∀ k : ℕ, k ≤ fuel → i + (k : α) * step ≤ 1) →
      sampleLoop body step fuel i polygon = none := by
  intro fuel
  induction fuel with
  | zero =>
    intro i polygon h
    have hi : i ≤ 1 := by simpa using h 0 le_rfl
    simp [sampleLoop, hi]
  | succ fuel ih =>
    intro i polygon h
    have hi : i ≤ 1 := by simpa using h 0 (Nat.zero_le _)
    rw [sampleLoop, if_pos hi]
    apply ih
    intro k hk
    have := h (k + 1) (Nat.succ_le_succ hk)
    push_cast at this
    linarith

/-- The clamped quotient for a divisor that is not zero. -/
theorem clamp_of_ne_zero (a b : α) (hb : b ≠ 0) :
    Double.max (Double.finite 0) (Double.sub (Double.finite 1) (Double.div a b))
      = Double.finite (max 0 (1 - a / b)) := by
  simp only [Double.div, if_neg hb, Double.sub, Double.max, Double.lt]
  by_cases h : (0 : α) < 1 - a / b
  · simp [h, max_eq_right h.le]
  · simp [h, max_eq_left (not_lt.mp h)]

/-- The clamped quotient for a zero divisor and a dividend that is not negative:
the quotient is `+∞` or NaN, and `std::max` returns its first argument. -/
theorem clamp_of_zero (a : α) (ha : 0 ≤ a) :
    Double.max (Double.finite 0) (Double.sub (Double.finite 1) (Double.div a 0))
      = Double.finite 0 := by
  rcases eq_or_lt_of_le ha with h | h
  · subst h
    simp [Double.div, Double.sub, Double.max, Double.lt]
  · simp [Double.div, h.ne.symm, h, Double.sub, Double.max, Double.lt]

/-- The clamped quotient is at least zero whatever the two areas are. -/
theorem zero_le_clamp (a b : α) :
    Double.le (Double.finite 0)
      (Double.max (Double.finite 0) (Double.sub (Double.finite 1) (Double.div a b))) = true := by
  by_cases hb : b = 0
  · subst hb
    by_cases ha : a = 0
    · simp [Double.div, ha, Double.sub, Double.max, Double.lt, Double.le]
    · by_cases hpos : 0 < a
      · simp [Double.div, ha, hpos, Double.sub, Double.max, Double.lt, Double.le]
      · simp [Double.div, ha, hpos, Double.sub, Double.max, Double.lt, Double.le]
  · rw [clamp_of_ne_zero a b hb]
    simp [Double.le]

/-- The two assertions pass on a finite reading of the unit interval. -/
theorem checkReading_finite (s : Sensor α) (r : α) (hs : s.m_currentReading = Double.finite r)
    (h0 : 0 ≤ r) (h1 : r ≤ 1) : Sensor.checkReading s = Outcome.returned s := by
  simp [Sensor.checkReading, hs, Double.le, h0, h1]

/-- A call of `checkReading` that returns leaves the state as it was. -/
theorem checkReading_returned (s s' : Sensor α)
    (h : Sensor.checkReading s = Outcome.returned s') : s' = s := by
  unfold Sensor.checkReading at h
  split_ifs at h
  exact (Outcome.returned.inj h).symm

/-- The call `updateReading` once the view polygon is known. -/
theorem updateReading_of_view (G : Geometry α Maze) (fuel : ℕ) (s : Sensor α)
    (currentPosition : Coordinate α) (currentDirection : α) (maze : Maze) (view : Polygon α)
    (hview : s.getViewPolygon G fuel currentPosition currentDirection maze = some view) :
    s.updateReading G fuel currentPosition currentDirection maze
      = Sensor.checkReading
          { s with
            m_currentReading :=
              Double.max (Double.finite 0)
                (Double.sub (Double.finite 1)
                  (Double.div (G.area view) (G.area s.getInitialViewPolygon))) } := by
  simp [Sensor.updateReading, hview]

/-- A call of `updateReading` that returns has computed a view polygon and
stored its clamped quotient, touching no other member. -/
theorem updateReading_returned (G : Geometry α Maze) (fuel : ℕ) (s s' : Sensor α)
    (currentPosition : Coordinate α) (currentDirection : α) (maze : Maze)
    (h : s.updateReading G fuel currentPosition currentDirection maze = Outcome.returned s') :
    ∃ view, s.getViewPolygon G fuel currentPosition currentDirection maze = some view ∧
      s' = { s with
              m_currentReading :=
                Double.max (Double.finite 0)
                  (Double.sub (Double.finite 1)
                    (Double.div (G.area view) (G.area s.getInitialViewPolygon))) } := by
  cases hview : s.getViewPolygon G fuel currentPosition currentDirection maze with
  | none => simp [Sensor.updateReading, hview] at h
  | some view =>
    rw [updateReading_of_view G fuel s currentPosition currentDirection maze view hview] at h
    exact ⟨view, rfl, checkReading_returned _ _ h⟩

/-- The view polygon is computed for every positive number of view edge points. -/
theorem getViewPolygon_total (G : Geometry α Maze) (fuel : ℕ) (s : Sensor α)
    (currentPosition : Coordinate α) (currentDirection : α) (maze : Maze)
    (hn : 1 ≤ s.m_numberOfViewEdgePoints) (hfuel : s.m_numberOfViewEdgePoints ≤ fuel) :
    ∃ view, s.getViewPolygon G fuel currentPosition currentDirection maze = some view := by
  obtain ⟨counters, hc⟩ := @sampleRays_total α _ s.m_numberOfViewEdgePoints fuel hn hfuel
  refine ⟨⟨[currentPosition] ++ counters.map (fun i =>
      G.castRay currentPosition
        (currentPosition + G.Polar s.m_range (currentDirection + s.m_halfWidth * i))
        maze (G.wallWidth / 2) (G.wallLength + G.wallWidth))⟩, ?_⟩
  simp only [Sensor.getViewPolygon, hc, Option.map_some']

/-- The view polygon of a sensor with eight view edge points. -/
theorem getViewPolygon_eight (G : Geometry α Maze) (fuel : ℕ) (s : Sensor α)
    (currentPosition : Coordinate α) (currentDirection : α) (maze : Maze)
    (hn : s.m_numberOfViewEdgePoints = 8) (hfuel : 8 ≤ fuel) :
    s.getViewPolygon G fuel currentPosition currentDirection maze
      = some ⟨currentPosition :: (List.range 8).map (fun k : ℕ =>
          G.castRay currentPosition
            (currentPosition
              + G.Polar s.m_range (currentDirection + s.m_halfWidth * (-1 + 2 * (k : α) / 7)))
            maze (G.wallWidth / 2) (G.wallLength + G.wallWidth))⟩ := by
  simp only [Sensor.getViewPolygon, hn, sampleRays_eight _ fuel _ hfuel, Option.map_some',
    List.singleton_append]

end

/-! ## The shoelace area of a view polygon -/

section
variable {α : Type} [LinearOrderedField α]

/-- The shoelace area is not negative. -/
theorem Polygon.area_nonneg (p : Polygon α) : 0 ≤ p.area := by
  unfold Polygon.area
  positivity

/-- The cross products of a vertex with itself, all along a list, add up to zero. -/
theorem sum_zipWith_cross_replicate (p : Coordinate α) (n m : ℕ) :
    (List.zipWith cross (List.replicate n p) (List.replicate m p)).sum = 0 := by
  induction n generalizing m with
  | zero => simp
  | succ n ih =>
    cases m with
    | zero => simp
    | succ m =>
      simp only [List.replicate_succ, List.zipWith_cons_cons, List.sum_cons, ih, add_zero]
      simp [cross, mul_comm]

/-- A polygon whose vertices are all the same point has area zero. -/
theorem Polygon.area_replicate (p : Coordinate α) (n : ℕ) :
    Polygon.area ⟨List.replicate n p⟩ = 0 := by
  unfold Polygon.area
  simp only [List.rotate_replicate, sum_zipWith_cross_replicate, abs_zero, zero_div]

/-- The area of a fan of eight rays: the apex and the offsets from it enter
only through the cross products of consecutive offsets. -/
theorem Polygon.area_fan (p : Coordinate α) (v w : ℕ → Coordinate α)
    (h : ∀ k : ℕ, k < 8 → v k = p + w k) :
    Polygon.area ⟨p :: (List.range 8).map v⟩
      = |((List.range 7).map (fun k : ℕ => cross (w k) (w (k + 1)))).sum| / 2 := by
  have h8 : List.range 8 = [0, 1, 2, 3, 4, 5, 6, 7] := by decide
  have h7 : List.range 7 = [0, 1, 2, 3, 4, 5, 6] := by decide
  rw [h8, h7]
  simp only [List.map_cons, List.map_nil]
  rw [h 0 (by norm_num), h 1 (by norm_num), h 2 (by norm_num), h 3 (by norm_num),
    h 4 (by norm_num), h 5 (by norm_num), h 6 (by norm_num), h 7 (by norm_num)]
  have hx : ∀ a b : Coordinate α, (a + b).x = a.x + b.x := fun _ _ => rfl
  have hy : ∀ a b : Coordinate α, (a + b).y = a.y + b.y := fun _ _ => rfl
  unfold Polygon.area
  congr 2
  simp only [List.rotate_cons_succ, List.rotate_zero, List.cons_append, List.nil_append,
    List.zipWith_cons_cons, List.zipWith_nil_right, List.sum_cons, List.sum_nil, cross, hx, hy]
  ring

end

section
variable {Maze : Type}

/-- The cross product of two polar offsets of the same length. -/
theorem cross_Polar (R a b : ℝ) :
    cross (Coordinate.Polar Real.cos Real.sin R a) (Coordinate.Polar Real.cos Real.sin R b)
      = R ^ 2 * Real.sin (b - a) := by
  simp only [cross, Coordinate.Polar, Real.sin_sub]
  ring

/-- The area of a fan of eight rays of length `R`, consecutive rays `δ` apart. -/
theorem Polygon.area_polar_fan (p : Coordinate ℝ) (R θ δ : ℝ) (v : ℕ → Coordinate ℝ)
    (h : ∀ k : ℕ, k < 8 → v k = p + Coordinate.Polar Real.cos Real.sin R (θ + (k : ℝ) * δ)) :
    Polygon.area ⟨p :: (List.range 8).map v⟩ = 7 / 2 * R ^ 2 * |Real.sin δ| := by
  rw [Polygon.area_fan p v (fun k => Coordinate.Polar Real.cos Real.sin R (θ + (k : ℝ) * δ)) h]
  have hc : ∀ k : ℕ, cross (Coordinate.Polar Real.cos Real.sin R (θ + (k : ℝ) * δ))
      (Coordinate.Polar Real.cos Real.sin R (θ + ((k + 1 : ℕ) : ℝ) * δ))
      = R ^ 2 * Real.sin δ := by
    intro k
    rw [cross_Polar]
    congr 2
    push_cast
    ring
  simp only [hc]
  have h7 : List.range 7 = [0, 1, 2, 3, 4, 5, 6] := by decide
  rw [h7]
  simp only [List.map_cons, List.map_nil, List.sum_cons, List.sum_nil]
  have : R ^ 2 * Real.sin δ + (R ^ 2 * Real.sin δ + (R ^ 2 * Real.sin δ + (R ^ 2 * Real.sin δ
      + (R ^ 2 * Real.sin δ + (R ^ 2 * Real.sin δ + (R ^ 2 * Real.sin δ + 0))))))
      = 7 * R ^ 2 * Real.sin δ := by ring
  rw [this, abs_mul, abs_mul, abs_of_nonneg (by norm_num : (0 : ℝ) ≤ 7),
    abs_of_nonneg (sq_nonneg R)]
  ring

/-- The fan is not degenerate for a positive range and a half-width of at most `π`. -/
theorem fan_area_pos (range halfWidth : ℝ) (hrange : 0 < range) (hpos : 0 < halfWidth)
    (hpi : halfWidth ≤ Real.pi) :
    0 < 7 / 2 * range ^ 2 * |Real.sin (2 * halfWidth / 7)| := by
  have hsin : 0 < Real.sin (2 * halfWidth / 7) :=
    Real.sin_pos_of_pos_of_lt_pi (by positivity) (by linarith [Real.pi_pos])
  have : 0 < |Real.sin (2 * halfWidth / 7)| := abs_pos.mpr hsin.ne.symm
  positivity

end

/-! ## The constructor and the two extreme surroundings -/

section
variable {α Maze : Type} [LinearOrderedField α]

/-- Addition of coordinates is commutative. -/
theorem Coordinate.add_comm' (a b : Coordinate α) : a + b = b + a := by
  show (⟨a.x + b.x, a.y + b.y⟩ : Coordinate α) = ⟨b.x + a.x, b.y + a.y⟩
  rw [add_comm a.x, add_comm a.y]

/-- With areas that are not negative `updateReading` returns whenever the view
polygon is computed, and the reading it stores is in the unit interval. -/
theorem updateReading_of_nonneg (G : Geometry α Maze) (fuel : ℕ) (s : Sensor α)
    (currentPosition : Coordinate α) (currentDirection : α) (maze : Maze) (view : Polygon α)
    (hview : s.getViewPolygon G fuel currentPosition currentDirection maze = some view)
    (ha : 0 ≤ G.area view) (hb : 0 ≤ G.area s.getInitialViewPolygon) :
    ∃ r, 0 ≤ r ∧ r ≤ 1 ∧
      Double.max (Double.finite 0) (Double.sub (Double.finite 1)
        (Double.div (G.area view) (G.area s.getInitialViewPolygon))) = Double.finite r ∧
      s.updateReading G fuel currentPosition currentDirection maze
        = Outcome.returned { s with m_currentReading := Double.finite r } := by
  rw [updateReading_of_view G fuel s currentPosition currentDirection maze view hview]
  rcases eq_or_lt_of_le hb with h0 | hpos
  · refine ⟨0, le_rfl, zero_le_one, ?_, ?_⟩
    · rw [← h0]; exact clamp_of_zero _ ha
    · rw [← h0, clamp_of_zero _ ha]
      exact checkReading_finite _ 0 rfl le_rfl zero_le_one
  · have hq : 0 ≤ G.area view / G.area s.getInitialViewPolygon := div_nonneg ha hb
    have h1 : max 0 (1 - G.area view / G.area s.getInitialViewPolygon) ≤ 1 :=
      max_le zero_le_one (by linarith)
    refine ⟨max 0 (1 - G.area view / G.area s.getInitialViewPolygon), le_max_left _ _, h1,
      clamp_of_ne_zero _ _ hpos.ne.symm, ?_⟩
    rw [clamp_of_ne_zero _ _ hpos.ne.symm]
    exact checkReading_finite _ _ rfl (le_max_left _ _) h1

/-- The constructor stores the fan of the eight candidate endpoints, none of
them cast against the maze, and then updates the reading at the mounting pose. -/
theorem Sensor_eq_updateReading (G : Geometry α Maze) (fuel : ℕ) (uninitialised : Double α)
    (radius range halfWidth : α) (position : Coordinate α) (direction : α) (maze : Maze)
    (hfuel : 8 ≤ fuel) :
    Sensor.Sensor G fuel uninitialised radius range halfWidth position direction maze
      = Sensor.updateReading G fuel
          { m_range := range
            m_halfWidth := halfWidth
            m_initialPosition := position
            m_initialDirection := direction
            m_numberOfViewEdgePoints := 8
            m_initialPolygon := G.createCirclePolygon position radius 8
            m_initialViewPolygon :=
              ⟨position :: (List.range 8).map (fun k : ℕ =>
                G.Polar range (halfWidth * (-1 + 2 * (k : α) / 7) + direction) + position)⟩
            m_currentReading := uninitialised }
          position direction maze := by
  simp only [Sensor.Sensor, sampleRays_eight _ fuel _ hfuel, List.singleton_append]

/-- The view polygon when every sampled ray reaches its candidate endpoint. -/
theorem getViewPolygon_clear (G : Geometry α Maze) (fuel : ℕ) (s : Sensor α)
    (currentPosition : Coordinate α) (currentDirection : α) (maze : Maze)
    (hn : s.m_numberOfViewEdgePoints = 8) (hfuel : 8 ≤ fuel)
    (hclear : ∀ k : ℕ, k < 8 →
      G.castRay currentPosition
        (currentPosition
          + G.Polar s.m_range (currentDirection + s.m_halfWidth * (-1 + 2 * (k : α) / 7)))
        maze (G.wallWidth / 2) (G.wallLength + G.wallWidth)
      = currentPosition
          + G.Polar s.m_range (currentDirection + s.m_halfWidth * (-1 + 2 * (k : α) / 7))) :
    s.getViewPolygon G fuel currentPosition currentDirection maze
      = some ⟨currentPosition :: (List.range 8).map (fun k : ℕ =>
          G.Polar s.m_range (s.m_halfWidth * (-1 + 2 * (k : α) / 7) + currentDirection)
            + currentPosition)⟩ := by
  rw [getViewPolygon_eight G fuel s currentPosition currentDirection maze hn hfuel]
  congr 3
  apply List.map_congr_left
  intro k hk
  rw [hclear k (List.mem_range.mp hk), Coordinate.add_comm', add_comm currentDirection]

/-- The view polygon when every sampled ray is blocked at its origin. -/
theorem getViewPolygon_blocked (G : Geometry α Maze) (fuel : ℕ) (s : Sensor α)
    (currentPosition : Coordinate α) (currentDirection : α) (maze : Maze)
    (hn : s.m_numberOfViewEdgePoints = 8) (hfuel : 8 ≤ fuel)
    (hblocked : ∀ k : ℕ, k < 8 →
      G.castRay currentPosition
        (currentPosition
          + G.Polar s.m_range (currentDirection + s.m_halfWidth * (-1 + 2 * (k : α) / 7)))
        maze (G.wallWidth / 2) (G.wallLength + G.wallWidth)
      = currentPosition) :
    s.getViewPolygon G fuel currentPosition currentDirection maze
      = some ⟨List.replicate 9 currentPosition⟩ := by
  rw [getViewPolygon_eight G fuel s currentPosition currentDirection maze hn hfuel]
  congr 2
  rw [List.replicate_succ]
  congr 1
  rw [List.eq_replicate_iff]
  refine ⟨by simp, ?_⟩
  intro q hq
  obtain ⟨k, hk, rfl⟩ := List.mem_map.mp hq
  exact hblocked k (List.mem_range.mp hk)

end

/-! ## The example sensor -/

section

/-- The initial view polygon of the example sensor has the area of its fan. -/
theorem exampleSensor_area (reading : ℝ)
    (castRay : Coordinate ℝ → Coordinate ℝ → Surroundings → ℝ → ℝ → Coordinate ℝ) :
    (exampleGeometry Real.cos Real.sin castRay).area
        (exampleSensor Real.cos Real.sin reading).getInitialViewPolygon
      = 7 / 2 * (1 : ℝ) ^ 2 * |Real.sin (2 * 1 / 7)| := by
  show Polygon.area _ = _
  refine Polygon.area_polar_fan ⟨0, 0⟩ 1 (-1) (2 * 1 / 7) _ ?_
  intro k _
  rw [Coordinate.add_comm']
  congr 2
  ring

/-- The initial view polygon of the example sensor has a positive area. -/
theorem exampleSensor_area_pos (reading : ℝ)
    (castRay : Coordinate ℝ → Coordinate ℝ → Surroundings → ℝ → ℝ → Coordinate ℝ) :
    0 < (exampleGeometry Real.cos Real.sin castRay).area
        (exampleSensor Real.cos Real.sin reading).getInitialViewPolygon := by
  rw [exampleSensor_area]
  exact fan_area_pos 1 1 one_pos one_pos (by linarith [Real.pi_gt_three])

/-- Embedded in a wall, the example sensor reads 1 at every pose. -/
theorem exampleSensor_embedded (reading : ℝ) (position : Coordinate ℝ) (direction : ℝ) :
    (exampleSensor Real.cos Real.sin reading).updateReading
        (exampleGeometry Real.cos Real.sin exampleCastRay) 8 position direction
        Surroundings.embedded
      = Outcome.returned (exampleSensor Real.cos Real.sin 1) := by
  have hview := getViewPolygon_blocked (exampleGeometry Real.cos Real.sin exampleCastRay) 8
    (exampleSensor Real.cos Real.sin reading) position direction Surroundings.embedded rfl le_rfl
    (fun _ _ => rfl)
  rw [updateReading_of_view _ _ _ _ _ _ _ hview,
    clamp_of_ne_zero _ _ (exampleSensor_area_pos reading exampleCastRay).ne.symm]
  have h0 : (exampleGeometry Real.cos Real.sin exampleCastRay).area
      ⟨List.replicate 9 position⟩ = 0 := Polygon.area_replicate position 9
  rw [h0, zero_div, sub_zero, max_eq_right zero_le_one]
  exact checkReading_finite _ 1 rfl zero_le_one le_rfl

end

/-! ## The claims on the reading -/

section
variable {α Maze : Type} [LinearOrderedField α]

/-- C1: for a sensor whose initial view polygon has a strictly positive area,
areas being non-negative, no call of `updateReading` ends in a failed
assertion, a call that returns leaves a finite reading `r` with `0 ≤ r ≤ 1`,
and the call does return for every positive number of view edge points. -/
theorem updateReading_reading_in_unit_interval (G : Geometry α Maze) (fuel : ℕ) (s : Sensor α)
    (currentPosition : Coordinate α) (currentDirection : α) (maze : Maze)
    (hnonneg : ∀ p : Polygon α, 0 ≤ G.area p)
    (hinit : 0 < G.area s.getInitialViewPolygon) :
    (∀ line : ℕ,
      s.updateReading G fuel currentPosition currentDirection maze ≠ Outcome.exited line) ∧
    (∀ s' : Sensor α,
      s.updateReading G fuel currentPosition currentDirection maze = Outcome.returned s' →
      ∃ r, s'.read = Double.finite r ∧ 0 ≤ r ∧ r ≤ 1) ∧
    (1 ≤ s.m_numberOfViewEdgePoints → s.m_numberOfViewEdgePoints ≤ fuel →
      ∃ s' : Sensor α,
        s.updateReading G fuel currentPosition currentDirection maze = Outcome.returned s') := by
  cases hview : s.getViewPolygon G fuel currentPosition currentDirection maze with
  | none =>
    have hrun : s.updateReading G fuel currentPosition currentDirection maze
        = Outcome.running := by
      simp [Sensor.updateReading, hview]
    refine ⟨fun line => by simp [hrun], fun s' h => by simp [hrun] at h, fun hn hfuel => ?_⟩
    obtain ⟨view, hv⟩ :=
      getViewPolygon_total G fuel s currentPosition currentDirection maze hn hfuel
    simp [hview] at hv
  | some view =>
    obtain ⟨r, h0, h1, _, hret⟩ :=
      updateReading_of_nonneg G fuel s currentPosition currentDirection maze view hview
        (hnonneg view) hinit.le
    refine ⟨fun line => by simp [hret], fun s' h => ?_, fun _ _ => ⟨_, hret⟩⟩
    rw [hret] at h
    exact ⟨r, by rw [← Outcome.returned.inj h]; rfl, h0, h1⟩

/-- The theorem of C1 at the example sensor, embedded in a wall. -/
theorem updateReading_reading_in_unit_interval_witness :
    (∀ p : Polygon ℝ, 0 ≤ (exampleGeometry Real.cos Real.sin exampleCastRay).area p) ∧
    0 < (exampleGeometry Real.cos Real.sin exampleCastRay).area
        (exampleSensor Real.cos Real.sin 0).getInitialViewPolygon ∧
    ((∀ line : ℕ,
      (exampleSensor Real.cos Real.sin 0).updateReading
        (exampleGeometry Real.cos Real.sin exampleCastRay) 8 ⟨1, 2⟩ 3 Surroundings.embedded
        ≠ Outcome.exited line) ∧
    (∀ s' : Sensor ℝ,
      (exampleSensor Real.cos Real.sin 0).updateReading
        (exampleGeometry Real.cos Real.sin exampleCastRay) 8 ⟨1, 2⟩ 3 Surroundings.embedded
        = Outcome.returned s' →
      ∃ r, s'.read = Double.finite r ∧ 0 ≤ r ∧ r ≤ 1) ∧
    (1 ≤ (exampleSensor Real.cos Real.sin (0 : ℝ)).m_numberOfViewEdgePoints →
      (exampleSensor Real.cos Real.sin (0 : ℝ)).m_numberOfViewEdgePoints ≤ (8 : ℕ) →
      ∃ s' : Sensor ℝ,
        (exampleSensor Real.cos Real.sin 0).updateReading
          (exampleGeometry Real.cos Real.sin exampleCastRay) 8 ⟨1, 2⟩ 3 Surroundings.embedded
          = Outcome.returned s')) :=
  ⟨fun p => Polygon.area_nonneg p, exampleSensor_area_pos 0 exampleCastRay,
    updateReading_reading_in_unit_interval _ 8 _ ⟨1, 2⟩ 3 Surroundings.embedded
      (fun p => Polygon.area_nonneg p) (exampleSensor_area_pos 0 exampleCastRay)⟩

/-- C2: after a call of `updateReading` that returns, `read()` is
`std::max(0.0, 1.0 - area(currentView) / area(initialView))`, which is
`max 0 (1 - a / b)` over the field when the initial area is not zero, and
`read()` is the stored member, whatever it held before the call. -/
theorem read_eq_clamped_quotient (G : Geometry α Maze) (fuel : ℕ) (s s' : Sensor α)
    (currentPosition : Coordinate α) (currentDirection : α) (maze : Maze)
    (h : s.updateReading G fuel currentPosition currentDirection maze = Outcome.returned s') :
    ∃ view : Polygon α,
      s.getCurrentViewPolygon G fuel currentPosition currentDirection maze = some view ∧
      s'.read = Double.max (Double.finite 0) (Double.sub (Double.finite 1)
        (Double.div (G.area view) (G.area s.getInitialViewPolygon))) ∧
      (G.area s.getInitialViewPolygon ≠ 0 →
        s'.read = Double.finite (max 0 (1 - G.area view / G.area s.getInitialViewPolygon))) ∧
      s'.read = s'.m_currentReading ∧
      ∀ before : Double α,
        Sensor.updateReading G fuel { s with m_currentReading := before }
          currentPosition currentDirection maze = Outcome.returned s' := by
  obtain ⟨view, hview, hs'⟩ :=
    updateReading_returned G fuel s s' currentPosition currentDirection maze h
  refine ⟨view, hview, by rw [hs']; rfl, fun hb => ?_, rfl, fun before => ?_⟩
  · rw [← clamp_of_ne_zero _ _ hb, hs']; rfl
  · rw [updateReading_of_view G fuel s currentPosition currentDirection maze view hview] at h
    have hview' : Sensor.getViewPolygon G fuel { s with m_currentReading := before }
        currentPosition currentDirection maze = some view := hview
    rw [updateReading_of_view G fuel _ currentPosition currentDirection maze view hview']
    exact h

/-- The theorem of C2 at the example sensor, embedded in a wall. -/
theorem read_eq_clamped_quotient_witness :
    ∃ view : Polygon ℝ,
      (exampleSensor Real.cos Real.sin 0).getCurrentViewPolygon
        (exampleGeometry Real.cos Real.sin exampleCastRay) 8 ⟨1, 2⟩ 3 Surroundings.embedded
        = some view ∧
      (exampleSensor Real.cos Real.sin (1 : ℝ)).read
        = Double.max (Double.finite 0) (Double.sub (Double.finite 1)
            (Double.div ((exampleGeometry Real.cos Real.sin exampleCastRay).area view)
              ((exampleGeometry Real.cos Real.sin exampleCastRay).area
                (exampleSensor Real.cos Real.sin 0).getInitialViewPolygon))) ∧
      ((exampleGeometry Real.cos Real.sin exampleCastRay).area
          (exampleSensor Real.cos Real.sin 0).getInitialViewPolygon ≠ 0 →
        (exampleSensor Real.cos Real.sin (1 : ℝ)).read
          = Double.finite (max 0 (1 -
              (exampleGeometry Real.cos Real.sin exampleCastRay).area view /
              (exampleGeometry Real.cos Real.sin exampleCastRay).area
                (exampleSensor Real.cos Real.sin 0).getInitialViewPolygon))) ∧
      (exampleSensor Real.cos Real.sin (1 : ℝ)).read
        = (exampleSensor Real.cos Real.sin (1 : ℝ)).m_currentReading ∧
      ∀ before : Double ℝ,
        Sensor.updateReading (exampleGeometry Real.cos Real.sin exampleCastRay) 8
          { exampleSensor Real.cos Real.sin 0 with m_currentReading := before }
          ⟨1, 2⟩ 3 Surroundings.embedded
          = Outcome.returned (exampleSensor Real.cos Real.sin 1) :=
  read_eq_clamped_quotient _ 8 _ _ ⟨1, 2⟩ 3 Surroundings.embedded
    (exampleSensor_embedded 0 ⟨1, 2⟩ 3)

end

/-! ## The frame of an update and the shape of the view polygon -/

section
variable {α Maze : Type} [LinearOrderedField α]

/-- A run of updates that returns has changed the reading only. -/
theorem updateReadings_returned (G : Geometry α Maze) (fuel : ℕ)
    (ticks : List (Coordinate α × α × Maze)) :
    ∀ s s' : Sensor α, updateReadings G fuel s ticks = Outcome.returned s' →
      s' = { s with m_currentReading := s'.m_currentReading } := by
  induction ticks with
  | nil =>
    intro s s' h
    rw [updateReadings] at h
    rw [← Outcome.returned.inj h]
  | cons tick ticks ih =>
    intro s s' h
    obtain ⟨position, direction, maze⟩ := tick
    rw [updateReadings] at h
    cases hstep : s.updateReading G fuel position direction maze with
    | returned s₁ =>
      rw [hstep] at h
      obtain ⟨view, -, hs₁⟩ := updateReading_returned G fuel s s₁ position direction maze hstep
      have h' := ih s₁ s' h
      rw [h', hs₁]
    | exited line => rw [hstep] at h; cases h
    | running => rw [hstep] at h; cases h

/-- C8: a call of `updateReading` that returns, and any sequence of such
calls, leaves the initial view polygon, the initial body polygon, the initial
position, the initial direction, the range, the half-width and the number of
view edge points as they were, so the four `getInitial*` accessors return what
they returned before. -/
theorem updateReading_changes_reading_only (G : Geometry α Maze) (fuel : ℕ) (s s' : Sensor α) :
    ((∃ (currentPosition : Coordinate α) (currentDirection : α) (maze : Maze),
        s.updateReading G fuel currentPosition currentDirection maze = Outcome.returned s') ∨
      (∃ ticks : List (Coordinate α × α × Maze),
        updateReadings G fuel s ticks = Outcome.returned s')) →
    s'.getInitialViewPolygon = s.getInitialViewPolygon ∧
    s'.getInitialPolygon = s.getInitialPolygon ∧
    s'.getInitialPosition = s.getInitialPosition ∧
    s'.getInitialDirection = s.getInitialDirection ∧
    s'.m_range = s.m_range ∧
    s'.m_halfWidth = s.m_halfWidth ∧
    s'.m_numberOfViewEdgePoints = s.m_numberOfViewEdgePoints ∧
    s' = { s with m_currentReading := s'.read } := by
  intro h
  have key : s' = { s with m_currentReading := s'.m_currentReading } := by
    rcases h with ⟨position, direction, maze, h⟩ | ⟨ticks, h⟩
    · obtain ⟨view, -, hs'⟩ := updateReading_returned G fuel s s' position direction maze h
      rw [hs']
    · exact updateReadings_returned G fuel ticks s s' h
  refine ⟨?_, ?_, ?_, ?_, ?_, ?_, ?_, key⟩ <;> rw [key] <;> rfl

/-- The theorem of C8 at the example sensor, updated twice in a wall. -/
theorem updateReading_changes_reading_only_witness :
    (exampleSensor Real.cos Real.sin (1 : ℝ)).getInitialViewPolygon
      = (exampleSensor Real.cos Real.sin (0 : ℝ)).getInitialViewPolygon ∧
    (exampleSensor Real.cos Real.sin (1 : ℝ)).getInitialPolygon
      = (exampleSensor Real.cos Real.sin (0 : ℝ)).getInitialPolygon ∧
    (exampleSensor Real.cos Real.sin (1 : ℝ)).getInitialPosition
      = (exampleSensor Real.cos Real.sin (0 : ℝ)).getInitialPosition ∧
    (exampleSensor Real.cos Real.sin (1 : ℝ)).getInitialDirection
      = (exampleSensor Real.cos Real.sin (0 : ℝ)).getInitialDirection ∧
    (exampleSensor Real.cos Real.sin (1 : ℝ)).m_range
      = (exampleSensor Real.cos Real.sin (0 : ℝ)).m_range ∧
    (exampleSensor Real.cos Real.sin (1 : ℝ)).m_halfWidth
      = (exampleSensor Real.cos Real.sin (0 : ℝ)).m_halfWidth ∧
    (exampleSensor Real.cos Real.sin (1 : ℝ)).m_numberOfViewEdgePoints
      = (exampleSensor Real.cos Real.sin (0 : ℝ)).m_numberOfViewEdgePoints ∧
    exampleSensor Real.cos Real.sin (1 : ℝ)
      = { exampleSensor Real.cos Real.sin (0 : ℝ) with
          m_currentReading := (exampleSensor Real.cos Real.sin (1 : ℝ)).read } :=
  updateReading_changes_reading_only (exampleGeometry Real.cos Real.sin exampleCastRay) 8 _ _
    (Or.inr ⟨[(⟨1, 2⟩, 3, Surroundings.embedded), (⟨0, 1⟩, 0, Surroundings.embedded)], by
      simp only [updateReadings, exampleSensor_embedded]⟩)

/-- C9: the current view polygon of a sensor with 8 view edge points has 9
vertices, the current position and then, for `k = 0..7`, the result of
`castRay` on the ray of angle `currentDirection + halfWidth * (-1 + 2k/7)`;
the loop makes 8 passes and no fewer, the first ray is at `-halfWidth`, the
last at `+halfWidth`, and each ray is `2 * halfWidth / 7` after the one before. -/
theorem getCurrentViewPolygon_eight_rays (G : Geometry α Maze) (s : Sensor α)
    (currentPosition : Coordinate α) (currentDirection : α) (maze : Maze)
    (hn : s.m_numberOfViewEdgePoints = 8) :
    (∀ fuel : ℕ, 8 ≤ fuel →
      ∃ view : Polygon α,
        s.getCurrentViewPolygon G fuel currentPosition currentDirection maze = some view ∧
        view.m_vertices.length = 9 ∧
        view.m_vertices = currentPosition :: (List.range 8).map (fun k : ℕ =>
          G.castRay currentPosition
            (currentPosition
              + G.Polar s.m_range (currentDirection + s.m_halfWidth * (-1 + 2 * (k : α) / 7)))
            maze (G.wallWidth / 2) (G.wallLength + G.wallWidth))) ∧
    (∀ fuel : ℕ, fuel < 8 →
      s.getCurrentViewPolygon G fuel currentPosition currentDirection maze = none) ∧
    currentDirection + s.m_halfWidth * (-1 + 2 * ((0 : ℕ) : α) / 7)
      = currentDirection - s.m_halfWidth ∧
    currentDirection + s.m_halfWidth * (-1 + 2 * ((7 : ℕ) : α) / 7)
      = currentDirection + s.m_halfWidth ∧
    (∀ k : ℕ,
      (currentDirection + s.m_halfWidth * (-1 + 2 * ((k + 1 : ℕ) : α) / 7))
        - (currentDirection + s.m_halfWidth * (-1 + 2 * (k : α) / 7))
      = 2 * s.m_halfWidth / 7) ∧
    (0 ≤ s.m_halfWidth → ∀ k : ℕ,
      currentDirection + s.m_halfWidth * (-1 + 2 * (k : α) / 7)
        ≤ currentDirection + s.m_halfWidth * (-1 + 2 * ((k + 1 : ℕ) : α) / 7)) := by
  have hstep : ∀ k : ℕ,
      (currentDirection + s.m_halfWidth * (-1 + 2 * ((k + 1 : ℕ) : α) / 7))
        - (currentDirection + s.m_halfWidth * (-1 + 2 * (k : α) / 7))
      = 2 * s.m_halfWidth / 7 := by
    intro k
    push_cast
    ring
  refine ⟨fun fuel hfuel => ⟨_,
      getViewPolygon_eight G fuel s currentPosition currentDirection maze hn hfuel,
      by simp, rfl⟩, fun fuel hfuel => ?_, ?_, ?_, hstep, fun hw k => ?_⟩
  · have h7 : (((8 : ℤ) - 1 : ℤ) : α) = 7 := by norm_num
    simp only [Sensor.getCurrentViewPolygon, Sensor.getViewPolygon, hn, sampleRays, h7,
      Double.div, if_neg (by norm_num : (7 : α) ≠ 0)]
    rw [sampleLoop_running, Option.map_none']
    intro k hk
    have hk' : (k : α) ≤ 7 := by exact_mod_cast (by omega : k ≤ 7)
    linarith
  · push_cast
    ring
  · push_cast
    ring
  · have h := hstep k
    have : 0 ≤ 2 * s.m_halfWidth / 7 := by positivity
    linarith

/-- The theorem of C9 at the example sensor. -/
theorem getCurrentViewPolygon_eight_rays_witness :
    (exampleSensor Real.cos Real.sin (0 : ℝ)).m_numberOfViewEdgePoints = 8 ∧
    ∃ view : Polygon ℝ,
      (exampleSensor Real.cos Real.sin (0 : ℝ)).getCurrentViewPolygon
        (exampleGeometry Real.cos Real.sin exampleCastRay) 8 ⟨1, 2⟩ 3 Surroundings.clear
        = some view ∧
      view.m_vertices.length = 9 ∧
      view.m_vertices = ⟨1, 2⟩ :: (List.range 8).map (fun k : ℕ =>
        (exampleGeometry Real.cos Real.sin exampleCastRay).castRay ⟨1, 2⟩
          (⟨1, 2⟩ + (exampleGeometry Real.cos Real.sin exampleCastRay).Polar
            (exampleSensor Real.cos Real.sin (0 : ℝ)).m_range
            (3 + (exampleSensor Real.cos Real.sin (0 : ℝ)).m_halfWidth
              * (-1 + 2 * (k : ℝ) / 7)))
          Surroundings.clear
          ((exampleGeometry Real.cos Real.sin exampleCastRay).wallWidth / 2)
          ((exampleGeometry Real.cos Real.sin exampleCastRay).wallLength
            + (exampleGeometry Real.cos Real.sin exampleCastRay).wallWidth)) :=
  ⟨rfl, (getCurrentViewPolygon_eight_rays (exampleGeometry Real.cos Real.sin exampleCastRay)
    (exampleSensor Real.cos Real.sin 0) ⟨1, 2⟩ 3 Surroundings.clear rfl).1 8 le_rfl⟩

end

/-! ## A view larger than the initial view, and a view reduced to a point -/

section
variable {α Maze : Type} [LinearOrderedField α]

/-- The reading stored for a positive initial area. -/
theorem updateReading_of_pos (G : Geometry α Maze) (fuel : ℕ) (s : Sensor α)
    (currentPosition : Coordinate α) (currentDirection : α) (maze : Maze) (view : Polygon α)
    (hview : s.getViewPolygon G fuel currentPosition currentDirection maze = some view)
    (ha : 0 ≤ G.area view) (hb : 0 < G.area s.getInitialViewPolygon) :
    s.updateReading G fuel currentPosition currentDirection maze
      = Outcome.returned { s with
          m_currentReading :=
            Double.finite (max 0 (1 - G.area view / G.area s.getInitialViewPolygon)) } := by
  obtain ⟨r, -, -, hr, hret⟩ :=
    updateReading_of_nonneg G fuel s currentPosition currentDirection maze view hview ha hb.le
  rw [clamp_of_ne_zero _ _ hb.ne.symm] at hr
  rw [hret, hr]

/-- The reading is zero when the view has the area of the initial view. -/
theorem updateReading_of_same_area (G : Geometry α Maze) (fuel : ℕ) (s : Sensor α)
    (currentPosition : Coordinate α) (currentDirection : α) (maze : Maze) (view : Polygon α)
    (hview : s.getViewPolygon G fuel currentPosition currentDirection maze = some view)
    (ha : G.area view = G.area s.getInitialViewPolygon)
    (hb : 0 < G.area s.getInitialViewPolygon) :
    s.updateReading G fuel currentPosition currentDirection maze
      = Outcome.returned { s with m_currentReading := Double.finite 0 } := by
  rw [updateReading_of_pos G fuel s currentPosition currentDirection maze view hview
    (by rw [ha]; exact hb.le) hb, ha, div_self hb.ne.symm, sub_self, max_self]

/-- The reading is zero when the view is larger than the initial view. -/
theorem updateReading_of_lt (G : Geometry α Maze) (fuel : ℕ) (s : Sensor α)
    (currentPosition : Coordinate α) (currentDirection : α) (maze : Maze) (view : Polygon α)
    (hview : s.getViewPolygon G fuel currentPosition currentDirection maze = some view)
    (hb : 0 ≤ G.area s.getInitialViewPolygon)
    (hlt : G.area s.getInitialViewPolygon < G.area view) :
    s.updateReading G fuel currentPosition currentDirection maze
      = Outcome.returned { s with m_currentReading := Double.finite 0 } := by
  have ha : 0 ≤ G.area view := hb.trans hlt.le
  rcases eq_or_lt_of_le hb with h0 | hpos
  · rw [updateReading_of_view G fuel s currentPosition currentDirection maze view hview, ← h0,
      clamp_of_zero _ ha]
    exact checkReading_finite _ 0 rfl le_rfl zero_le_one
  · rw [updateReading_of_pos G fuel s currentPosition currentDirection maze view hview ha hpos]
    have hq : 1 < G.area view / G.area s.getInitialViewPolygon := (one_lt_div hpos).mpr hlt
    rw [max_eq_left (by linarith)]

/-- The reading is one when every sampled ray is blocked at its origin. -/
theorem updateReading_of_blocked (G : Geometry α Maze) (fuel : ℕ) (s : Sensor α)
    (currentPosition : Coordinate α) (currentDirection : α) (maze : Maze)
    (hn : s.m_numberOfViewEdgePoints = 8) (hfuel : 8 ≤ fuel)
    (harea : G.area = Polygon.area)
    (hinit : 0 < G.area s.getInitialViewPolygon)
    (hblocked : ∀ k : ℕ, k < 8 →
      G.castRay currentPosition
        (currentPosition
          + G.Polar s.m_range (currentDirection + s.m_halfWidth * (-1 + 2 * (k : α) / 7)))
        maze (G.wallWidth / 2) (G.wallLength + G.wallWidth)
      = currentPosition) :
    G.area ⟨List.replicate 9 currentPosition⟩ = 0 ∧
    s.updateReading G fuel currentPosition currentDirection maze
      = Outcome.returned { s with m_currentReading := Double.finite 1 } := by
  have hview := getViewPolygon_blocked G fuel s currentPosition currentDirection maze hn hfuel
    hblocked
  have h0 : G.area ⟨List.replicate 9 currentPosition⟩ = 0 := by
    rw [harea]; exact Polygon.area_replicate currentPosition 9
  refine ⟨h0, ?_⟩
  rw [updateReading_of_pos G fuel s currentPosition currentDirection maze _ hview h0.ge hinit,
    h0, zero_div, sub_zero, max_eq_right zero_le_one]

/-- C7: for a sensor whose initial view polygon has a strictly positive area,
at a pose and in a maze where `castRay` returns the ray origin for each of the
eight sampled rays, the current view polygon has area 0 and `updateReading`
returns with the reading exactly 1. -/
theorem blocked_view_reads_one (G : Geometry α Maze) (fuel : ℕ) (s : Sensor α)
    (currentPosition : Coordinate α) (currentDirection : α) (maze : Maze)
    (hn : s.m_numberOfViewEdgePoints = 8) (hfuel : 8 ≤ fuel)
    (harea : G.area = Polygon.area)
    (hinit : 0 < G.area s.getInitialViewPolygon)
    (hblocked : ∀ k : ℕ, k < 8 →
      G.castRay currentPosition
        (currentPosition
          + G.Polar s.m_range (currentDirection + s.m_halfWidth * (-1 + 2 * (k : α) / 7)))
        maze (G.wallWidth / 2) (G.wallLength + G.wallWidth)
      = currentPosition) :
    ∃ (view : Polygon α) (s' : Sensor α),
      s.getCurrentViewPolygon G fuel currentPosition currentDirection maze = some view ∧
      G.area view = 0 ∧
      s.updateReading G fuel currentPosition currentDirection maze = Outcome.returned s' ∧
      s'.read = Double.finite 1 := by
  obtain ⟨h0, hret⟩ := updateReading_of_blocked G fuel s currentPosition currentDirection maze
    hn hfuel harea hinit hblocked
  exact ⟨_, _, getViewPolygon_blocked G fuel s currentPosition currentDirection maze hn hfuel
    hblocked, h0, hret, rfl⟩

/-- The theorem of C7 at the example sensor, embedded in a wall. -/
theorem blocked_view_reads_one_witness :
    0 < (exampleGeometry Real.cos Real.sin exampleCastRay).area
        (exampleSensor Real.cos Real.sin 0).getInitialViewPolygon ∧
    ∃ (view : Polygon ℝ) (s' : Sensor ℝ),
      (exampleSensor Real.cos Real.sin 0).getCurrentViewPolygon
        (exampleGeometry Real.cos Real.sin exampleCastRay) 8 ⟨1, 2⟩ 3 Surroundings.embedded
        = some view ∧
      (exampleGeometry Real.cos Real.sin exampleCastRay).area view = 0 ∧
      (exampleSensor Real.cos Real.sin 0).updateReading
        (exampleGeometry Real.cos Real.sin exampleCastRay) 8 ⟨1, 2⟩ 3 Surroundings.embedded
        = Outcome.returned s' ∧
      s'.read = Double.finite 1 :=
  ⟨exampleSensor_area_pos 0 exampleCastRay,
    blocked_view_reads_one (exampleGeometry Real.cos Real.sin exampleCastRay) 8
      (exampleSensor Real.cos Real.sin 0) ⟨1, 2⟩ 3 Surroundings.embedded rfl le_rfl rfl
      (exampleSensor_area_pos 0 exampleCastRay) (fun _ _ => rfl)⟩

/-- C6, as the code has it: when the current view polygon is larger than the
initial view polygon, whose area is not negative, `updateReading` stores the
clamped reading 0 and returns; no assertion fails. -/
theorem larger_view_reads_zero (G : Geometry α Maze) (fuel : ℕ) (s : Sensor α)
    (currentPosition : Coordinate α) (currentDirection : α) (maze : Maze) (view : Polygon α)
    (hview : s.getCurrentViewPolygon G fuel currentPosition currentDirection maze = some view)
    (hinit : 0 ≤ G.area s.getInitialViewPolygon)
    (hlarger : G.area s.getInitialViewPolygon < G.area view) :
    s.updateReading G fuel currentPosition currentDirection maze
        = Outcome.returned { s with m_currentReading := Double.finite 0 } ∧
    ∀ line : ℕ,
      s.updateReading G fuel currentPosition currentDirection maze ≠ Outcome.exited line := by
  have h := updateReading_of_lt G fuel s currentPosition currentDirection maze view hview hinit
    hlarger
  exact ⟨h, fun line => by simp [h]⟩

end

section

/-- The view polygon of the example sensor under the defective ray caster, at
the mounting pose: the fan of range 2. -/
theorem exampleSensor_overshoot_view :
    (exampleSensor Real.cos Real.sin (0 : ℝ)).getViewPolygon
        (exampleGeometry Real.cos Real.sin overshootCastRay) 8 ⟨0, 0⟩ 0 Surroundings.clear
      = some ⟨⟨0, 0⟩ :: (List.range 8).map (fun k : ℕ =>
          (⟨0, 0⟩ : Coordinate ℝ)
            + Coordinate.Polar Real.cos Real.sin 2 (-1 + (k : ℝ) * (2 * 1 / 7)))⟩ := by
  rw [getViewPolygon_eight _ 8 _ _ _ _ rfl le_rfl]
  congr 3
  apply List.map_congr_left
  intro k _
  have hθ : (0 : ℝ) + (exampleSensor Real.cos Real.sin (0 : ℝ)).m_halfWidth
      * (-1 + 2 * (k : ℝ) / 7) = -1 + (k : ℝ) * (2 * 1 / 7) := by
    show (0 : ℝ) + 1 * (-1 + 2 * (k : ℝ) / 7) = _
    ring
  rw [hθ]
  show (⟨2 * (0 + 1 * Real.cos _) - 0, 2 * (0 + 1 * Real.sin _) - 0⟩ : Coordinate ℝ)
    = ⟨0 + 2 * Real.cos _, 0 + 2 * Real.sin _⟩
  congr 1 <;> ring

/-- Under the defective ray caster the view of the example sensor is larger
than its initial view. -/
theorem exampleSensor_overshoot_larger :
    (exampleGeometry Real.cos Real.sin overshootCastRay).area
        (exampleSensor Real.cos Real.sin (0 : ℝ)).getInitialViewPolygon
      < (exampleGeometry Real.cos Real.sin overshootCastRay).area
        ⟨⟨0, 0⟩ :: (List.range 8).map (fun k : ℕ =>
          (⟨0, 0⟩ : Coordinate ℝ)
            + Coordinate.Polar Real.cos Real.sin 2 (-1 + (k : ℝ) * (2 * 1 / 7)))⟩ := by
  have h2 : (exampleGeometry Real.cos Real.sin overshootCastRay).area
      ⟨⟨0, 0⟩ :: (List.range 8).map (fun k : ℕ =>
        (⟨0, 0⟩ : Coordinate ℝ)
          + Coordinate.Polar Real.cos Real.sin 2 (-1 + (k : ℝ) * (2 * 1 / 7)))⟩
      = 7 / 2 * (2 : ℝ) ^ 2 * |Real.sin (2 * 1 / 7)| :=
    Polygon.area_polar_fan ⟨0, 0⟩ 2 (-1) (2 * 1 / 7) _ (fun _ _ => rfl)
  have hpos := exampleSensor_area_pos 0 overshootCastRay
  rw [h2]
  rw [exampleSensor_area] at hpos ⊢
  linarith

/-- C6 fails on the code: under a ray caster that overshoots, the view of the
example sensor has four times the area of its initial view, and
`updateReading` returns with the reading 0 instead of ending the process. -/
theorem larger_view_is_not_fatal :
    ∃ view : Polygon ℝ,
      (exampleSensor Real.cos Real.sin (0 : ℝ)).getCurrentViewPolygon
          (exampleGeometry Real.cos Real.sin overshootCastRay) 8 ⟨0, 0⟩ 0 Surroundings.clear
        = some view ∧
      (exampleGeometry Real.cos Real.sin overshootCastRay).area
          (exampleSensor Real.cos Real.sin (0 : ℝ)).getInitialViewPolygon
        < (exampleGeometry Real.cos Real.sin overshootCastRay).area view ∧
      (exampleSensor Real.cos Real.sin (0 : ℝ)).updateReading
          (exampleGeometry Real.cos Real.sin overshootCastRay) 8 ⟨0, 0⟩ 0 Surroundings.clear
        = Outcome.returned (exampleSensor Real.cos Real.sin 0) := by
  exact ⟨_, exampleSensor_overshoot_view, exampleSensor_overshoot_larger,
    updateReading_of_lt _ 8 _ _ _ _ _ exampleSensor_overshoot_view
      (exampleSensor_area_pos 0 overshootCastRay).le exampleSensor_overshoot_larger⟩

/-- The theorem of C6 as amended, at the example sensor under the defective
ray caster. -/
theorem larger_view_reads_zero_witness :
    (exampleSensor Real.cos Real.sin (0 : ℝ)).updateReading
        (exampleGeometry Real.cos Real.sin overshootCastRay) 8 ⟨0, 0⟩ 0 Surroundings.clear
      = Outcome.returned
          { exampleSensor Real.cos Real.sin (0 : ℝ) with m_currentReading := Double.finite 0 } ∧
    ∀ line : ℕ,
      (exampleSensor Real.cos Real.sin (0 : ℝ)).updateReading
        (exampleGeometry Real.cos Real.sin overshootCastRay) 8 ⟨0, 0⟩ 0 Surroundings.clear
      ≠ Outcome.exited line :=
  larger_view_reads_zero (exampleGeometry Real.cos Real.sin overshootCastRay) 8
    (exampleSensor Real.cos Real.sin 0) ⟨0, 0⟩ 0 Surroundings.clear _
    exampleSensor_overshoot_view (exampleSensor_area_pos 0 overshootCastRay).le
    exampleSensor_overshoot_larger

end

/-! ## The constructor -/

section
variable {α Maze : Type} [LinearOrderedField α]

/-- With areas that are not negative the constructor returns, and the sensor
it leaves holds the fan of the eight candidate endpoints, whatever the maze. -/
theorem Sensor_returned (G : Geometry α Maze) (fuel : ℕ) (uninitialised : Double α)
    (radius range halfWidth : α) (position : Coordinate α) (direction : α) (maze : Maze)
    (hfuel : 8 ≤ fuel) (hnonneg : ∀ p : Polygon α, 0 ≤ G.area p) :
    ∃ r, 0 ≤ r ∧ r ≤ 1 ∧
      Sensor.Sensor G fuel uninitialised radius range halfWidth position direction maze
        = Outcome.returned
            { m_range := range
              m_halfWidth := halfWidth
              m_initialPosition := position
              m_initialDirection := direction
              m_numberOfViewEdgePoints := 8
              m_initialPolygon := G.createCirclePolygon position radius 8
              m_initialViewPolygon :=
                ⟨position :: (List.range 8).map (fun k : ℕ =>
                  G.Polar range (halfWidth * (-1 + 2 * (k : α) / 7) + direction) + position)⟩
              m_currentReading := Double.finite r } := by
  rw [Sensor_eq_updateReading G fuel uninitialised radius range halfWidth position direction
    maze hfuel]
  obtain ⟨view, hview⟩ := getViewPolygon_total G fuel
    { m_range := range
      m_halfWidth := halfWidth
      m_initialPosition := position
      m_initialDirection := direction
      m_numberOfViewEdgePoints := 8
      m_initialPolygon := G.createCirclePolygon position radius 8
      m_initialViewPolygon :=
        ⟨position :: (List.range 8).map (fun k : ℕ =>
          G.Polar range (halfWidth * (-1 + 2 * (k : α) / 7) + direction) + position)⟩
      m_currentReading := uninitialised }
    position direction maze (show (1 : ℤ) ≤ 8 by norm_num)
    (show (8 : ℤ) ≤ (fuel : ℤ) by exact_mod_cast hfuel)
  obtain ⟨r, h0, h1, -, hret⟩ := updateReading_of_nonneg G fuel _ position direction maze view
    hview (hnonneg _) (hnonneg _)
  exact ⟨r, h0, h1, hret⟩

/-- When every sampled ray from the mounting pose reaches its candidate
endpoint and the fan has a positive area, the constructor returns with the
reading 0. -/
theorem Sensor_of_clear (G : Geometry α Maze) (fuel : ℕ) (uninitialised : Double α)
    (radius range halfWidth : α) (position : Coordinate α) (direction : α) (maze : Maze)
    (hfuel : 8 ≤ fuel)
    (hinit : 0 < G.area ⟨position :: (List.range 8).map (fun k : ℕ =>
      G.Polar range (halfWidth * (-1 + 2 * (k : α) / 7) + direction) + position)⟩)
    (hclear : ∀ k : ℕ, k < 8 →
      G.castRay position
        (position + G.Polar range (direction + halfWidth * (-1 + 2 * (k : α) / 7)))
        maze (G.wallWidth / 2) (G.wallLength + G.wallWidth)
      = position + G.Polar range (direction + halfWidth * (-1 + 2 * (k : α) / 7))) :
    Sensor.Sensor G fuel uninitialised radius range halfWidth position direction maze
      = Outcome.returned
          { m_range := range
            m_halfWidth := halfWidth
            m_initialPosition := position
            m_initialDirection := direction
            m_numberOfViewEdgePoints := 8
            m_initialPolygon := G.createCirclePolygon position radius 8
            m_initialViewPolygon :=
              ⟨position :: (List.range 8).map (fun k : ℕ =>
                G.Polar range (halfWidth * (-1 + 2 * (k : α) / 7) + direction) + position)⟩
            m_currentReading := Double.finite 0 } := by
  rw [Sensor_eq_updateReading G fuel uninitialised radius range halfWidth position direction
    maze hfuel]
  exact updateReading_of_same_area G fuel _ position direction maze _
    (getViewPolygon_clear G fuel _ position direction maze rfl hfuel hclear) rfl hinit

end

section
variable {Maze : Type}

/-- The area of the fan built from a pose, in a geometry with the polar offset
and the shoelace area of the spec. -/
theorem area_view_fan (G : Geometry ℝ Maze)
    (hPolar : G.Polar = Coordinate.Polar Real.cos Real.sin) (harea : G.area = Polygon.area)
    (range halfWidth : ℝ) (position : Coordinate ℝ) (direction : ℝ) :
    G.area ⟨position :: (List.range 8).map (fun k : ℕ =>
        G.Polar range (halfWidth * (-1 + 2 * (k : ℝ) / 7) + direction) + position)⟩
      = 7 / 2 * range ^ 2 * |Real.sin (2 * halfWidth / 7)| := by
  rw [harea, hPolar]
  refine Polygon.area_polar_fan position range (direction - halfWidth) (2 * halfWidth / 7) _ ?_
  intro k _
  rw [Coordinate.add_comm']
  congr 2
  ring

/-- C10: the initial view polygon that the constructor stores has the shoelace
area `(7/2) * range^2 * |sin(2 * halfWidth / 7)|`, whatever the mounting
position, direction and maze, and this area is strictly positive when
`range > 0` and `0 < halfWidth ≤ π`. -/
theorem initial_view_area (G : Geometry ℝ Maze)
    (hPolar : G.Polar = Coordinate.Polar Real.cos Real.sin) (harea : G.area = Polygon.area)
    (fuel : ℕ) (hfuel : 8 ≤ fuel) (uninitialised : Double ℝ)
    (radius range halfWidth : ℝ) (position : Coordinate ℝ) (direction : ℝ) (maze : Maze) :
    ∃ s : Sensor ℝ,
      Sensor.Sensor G fuel uninitialised radius range halfWidth position direction maze
        = Outcome.returned s ∧
      s.getInitialViewPolygon.m_vertices = position :: (List.range 8).map (fun k : ℕ =>
        G.Polar range (halfWidth * (-1 + 2 * (k : ℝ) / 7) + direction) + position) ∧
      G.area s.getInitialViewPolygon = 7 / 2 * range ^ 2 * |Real.sin (2 * halfWidth / 7)| ∧
      (0 < range → 0 < halfWidth → halfWidth ≤ Real.pi →
        0 < G.area s.getInitialViewPolygon) := by
  obtain ⟨r, -, -, hret⟩ := Sensor_returned G fuel uninitialised radius range halfWidth position
    direction maze hfuel (fun p => by rw [harea]; exact Polygon.area_nonneg p)
  have hA := area_view_fan G hPolar harea range halfWidth position direction
  exact ⟨_, hret, rfl, hA, fun hrange hpos hpi =>
    lt_of_lt_of_eq (fan_area_pos range halfWidth hrange hpos hpi) hA.symm⟩

/-- The theorem of C10 at the example sensor. -/
theorem initial_view_area_witness :
    ∃ s : Sensor ℝ,
      Sensor.Sensor (exampleGeometry Real.cos Real.sin exampleCastRay) 8 Double.nan
          (1 / 10) 1 1 ⟨0, 0⟩ 0 Surroundings.embedded
        = Outcome.returned s ∧
      0 < (exampleGeometry Real.cos Real.sin exampleCastRay).area s.getInitialViewPolygon :=
  (initial_view_area (exampleGeometry Real.cos Real.sin exampleCastRay) rfl rfl 8 le_rfl
    Double.nan (1 / 10) 1 1 ⟨0, 0⟩ 0 Surroundings.embedded).imp
    (fun _ h => ⟨h.1, h.2.2.2 one_pos one_pos (by linarith [Real.pi_gt_three])⟩)

/-- C3: a sensor constructed with `range > 0` and `0 < halfWidth ≤ π` reads 0
after `updateReading` at every pose and in every maze where `castRay` returns
the candidate endpoint unchanged for each of the eight sampled rays. -/
theorem unobstructed_view_reads_zero (G : Geometry ℝ Maze)
    (hPolar : G.Polar = Coordinate.Polar Real.cos Real.sin) (harea : G.area = Polygon.area)
    (fuel : ℕ) (hfuel : 8 ≤ fuel) (uninitialised : Double ℝ)
    (radius range halfWidth : ℝ) (position : Coordinate ℝ) (direction : ℝ) (maze : Maze)
    (hrange : 0 < range) (hpos : 0 < halfWidth) (hpi : halfWidth ≤ Real.pi) :
    ∃ s : Sensor ℝ,
      Sensor.Sensor G fuel uninitialised radius range halfWidth position direction maze
        = Outcome.returned s ∧
      ∀ (currentPosition : Coordinate ℝ) (currentDirection : ℝ) (currentMaze : Maze),
        (∀ k : ℕ, k < 8 →
          G.castRay currentPosition
            (currentPosition
              + G.Polar range (currentDirection + halfWidth * (-1 + 2 * (k : ℝ) / 7)))
            currentMaze (G.wallWidth / 2) (G.wallLength + G.wallWidth)
          = currentPosition
              + G.Polar range (currentDirection + halfWidth * (-1 + 2 * (k : ℝ) / 7))) →
        ∃ s' : Sensor ℝ,
          s.updateReading G fuel currentPosition currentDirection currentMaze
            = Outcome.returned s' ∧
          s'.read = Double.finite 0 := by
  obtain ⟨r, -, -, hret⟩ := Sensor_returned G fuel uninitialised radius range halfWidth position
    direction maze hfuel (fun p => by rw [harea]; exact Polygon.area_nonneg p)
  refine ⟨_, hret, fun currentPosition currentDirection currentMaze hclear => ?_⟩
  have hview := getViewPolygon_clear G fuel
    { m_range := range
      m_halfWidth := halfWidth
      m_initialPosition := position
      m_initialDirection := direction
      m_numberOfViewEdgePoints := 8
      m_initialPolygon := G.createCirclePolygon position radius 8
      m_initialViewPolygon :=
        ⟨position :: (List.range 8).map (fun k : ℕ =>
          G.Polar range (halfWidth * (-1 + 2 * (k : ℝ) / 7) + direction) + position)⟩
      m_currentReading := Double.finite r }
    currentPosition currentDirection currentMaze rfl hfuel hclear
  have hA := area_view_fan G hPolar harea range halfWidth position direction
  have hA' := area_view_fan G hPolar harea range halfWidth currentPosition currentDirection
  exact ⟨_, updateReading_of_same_area G fuel _ currentPosition currentDirection currentMaze _
    hview (hA'.trans hA.symm)
    (lt_of_lt_of_eq (fan_area_pos range halfWidth hrange hpos hpi) hA.symm), rfl⟩

/-- The theorem of C3 at the example sensor, moved to another pose in the open. -/
theorem unobstructed_view_reads_zero_witness :
    ∃ s : Sensor ℝ,
      Sensor.Sensor (exampleGeometry Real.cos Real.sin exampleCastRay) 8 Double.nan
          (1 / 10) 1 1 ⟨0, 0⟩ 0 Surroundings.embedded
        = Outcome.returned s ∧
      ∃ s' : Sensor ℝ,
        s.updateReading (exampleGeometry Real.cos Real.sin exampleCastRay) 8 ⟨1, 2⟩ 3
            Surroundings.clear
          = Outcome.returned s' ∧
        s'.read = Double.finite 0 :=
  (unobstructed_view_reads_zero (exampleGeometry Real.cos Real.sin exampleCastRay) rfl rfl 8
    le_rfl Double.nan (1 / 10) 1 1 ⟨0, 0⟩ 0 Surroundings.embedded one_pos one_pos
    (by linarith [Real.pi_gt_three])).imp
    (fun _ h => ⟨h.1, h.2 ⟨1, 2⟩ 3 Surroundings.clear (fun _ _ => rfl)⟩)

end

/-! ## The initial view polygon and the maze of construction -/

section
variable {α Maze : Type} [LinearOrderedField α]

/-- C4, as the code has it: the initial view polygon that the constructor
stores is the mounting position followed by the eight candidate endpoints
`Polar(range, halfWidth * (-1 + 2k/7) + direction) + position`, not cast
against the maze; it is the current view polygon at the mounting pose when
`castRay` returns the candidate endpoint unchanged for each sampled ray. -/
theorem initial_view_is_uncast_fan (G : Geometry α Maze) (fuel : ℕ) (uninitialised : Double α)
    (radius range halfWidth : α) (position : Coordinate α) (direction : α) (maze : Maze)
    (hfuel : 8 ≤ fuel) (hnonneg : ∀ p : Polygon α, 0 ≤ G.area p) :
    ∃ s : Sensor α,
      Sensor.Sensor G fuel uninitialised radius range halfWidth position direction maze
        = Outcome.returned s ∧
      s.getInitialViewPolygon = ⟨position :: (List.range 8).map (fun k : ℕ =>
        G.Polar range (halfWidth * (-1 + 2 * (k : α) / 7) + direction) + position)⟩ ∧
      ((∀ k : ℕ, k < 8 →
          G.castRay position
            (position + G.Polar range (direction + halfWidth * (-1 + 2 * (k : α) / 7)))
            maze (G.wallWidth / 2) (G.wallLength + G.wallWidth)
          = position + G.Polar range (direction + halfWidth * (-1 + 2 * (k : α) / 7))) →
        s.getCurrentViewPolygon G fuel s.getInitialPosition s.getInitialDirection maze
          = some s.getInitialViewPolygon) := by
  obtain ⟨r, -, -, hret⟩ := Sensor_returned G fuel uninitialised radius range halfWidth position
    direction maze hfuel hnonneg
  exact ⟨_, hret, rfl, fun hclear =>
    getViewPolygon_clear G fuel _ position direction maze rfl hfuel hclear⟩

/-- C5, as the code has it: when the fan has a positive area and `castRay`
returns the candidate endpoint unchanged for each sampled ray from the
mounting pose, the constructor leaves the reading 0, and so does every later
`updateReading` at the mounting pose in the same maze. -/
theorem clear_construction_reads_zero (G : Geometry α Maze) (fuel : ℕ)
    (uninitialised : Double α) (radius range halfWidth : α) (position : Coordinate α)
    (direction : α) (maze : Maze) (hfuel : 8 ≤ fuel)
    (hinit : 0 < G.area ⟨position :: (List.range 8).map (fun k : ℕ =>
      G.Polar range (halfWidth * (-1 + 2 * (k : α) / 7) + direction) + position)⟩)
    (hclear : ∀ k : ℕ, k < 8 →
      G.castRay position
        (position + G.Polar range (direction + halfWidth * (-1 + 2 * (k : α) / 7)))
        maze (G.wallWidth / 2) (G.wallLength + G.wallWidth)
      = position + G.Polar range (direction + halfWidth * (-1 + 2 * (k : α) / 7))) :
    ∃ s : Sensor α,
      Sensor.Sensor G fuel uninitialised radius range halfWidth position direction maze
        = Outcome.returned s ∧
      0 < G.area s.getInitialViewPolygon ∧
      s.read = Double.finite 0 ∧
      s.updateReading G fuel s.getInitialPosition s.getInitialDirection maze
        = Outcome.returned s ∧
      ∀ before : Double α,
        Sensor.updateReading G fuel { s with m_currentReading := before }
          s.getInitialPosition s.getInitialDirection maze = Outcome.returned s := by
  have hret := Sensor_of_clear G fuel uninitialised radius range halfWidth position direction
    maze hfuel hinit hclear
  refine ⟨_, hret, hinit, rfl, ?_, fun before => ?_⟩
  · exact updateReading_of_same_area G fuel _ position direction maze _
      (getViewPolygon_clear G fuel _ position direction maze rfl hfuel hclear) rfl hinit
  · exact updateReading_of_same_area G fuel _ position direction maze _
      (getViewPolygon_clear G fuel _ position direction maze rfl hfuel hclear) rfl hinit

end

section

/-- Constructed inside a wall, the example sensor reads 1. -/
theorem Sensor_example_embedded (uninitialised : Double ℝ) (radius : ℝ) :
    Sensor.Sensor (exampleGeometry Real.cos Real.sin exampleCastRay) 8 uninitialised
        radius 1 1 ⟨0, 0⟩ 0 Surroundings.embedded
      = Outcome.returned (exampleSensor Real.cos Real.sin 1) := by
  rw [Sensor_eq_updateReading _ 8 uninitialised radius 1 1 ⟨0, 0⟩ 0 Surroundings.embedded le_rfl]
  exact (updateReading_of_blocked (exampleGeometry Real.cos Real.sin exampleCastRay) 8
    { exampleSensor Real.cos Real.sin (0 : ℝ) with m_currentReading := uninitialised }
    ⟨0, 0⟩ 0 Surroundings.embedded rfl le_rfl rfl
    (exampleSensor_area_pos 0 exampleCastRay) (fun _ _ => rfl)).2

/-- The view of the example sensor inside a wall is reduced to its position. -/
theorem exampleSensor_embedded_view (reading : ℝ) (position : Coordinate ℝ) (direction : ℝ) :
    (exampleSensor Real.cos Real.sin reading).getCurrentViewPolygon
        (exampleGeometry Real.cos Real.sin exampleCastRay) 8 position direction
        Surroundings.embedded
      = some ⟨List.replicate 9 position⟩ :=
  getViewPolygon_blocked (exampleGeometry Real.cos Real.sin exampleCastRay) 8
    (exampleSensor Real.cos Real.sin reading) position direction Surroundings.embedded rfl le_rfl
    (fun _ _ => rfl)

/-- C4 fails on the code: constructed inside a wall, the example sensor stores
an initial view polygon that is not its current view polygon at the mounting
pose in that maze. -/
theorem initial_view_is_not_cast :
    ∃ (s : Sensor ℝ) (view : Polygon ℝ),
      Sensor.Sensor (exampleGeometry Real.cos Real.sin exampleCastRay) 8 Double.nan
          (1 / 10) 1 1 ⟨0, 0⟩ 0 Surroundings.embedded
        = Outcome.returned s ∧
      s.getCurrentViewPolygon (exampleGeometry Real.cos Real.sin exampleCastRay) 8
          s.getInitialPosition s.getInitialDirection Surroundings.embedded
        = some view ∧
      s.getInitialViewPolygon ≠ view := by
  refine ⟨exampleSensor Real.cos Real.sin 1, ⟨List.replicate 9 ⟨0, 0⟩⟩,
    Sensor_example_embedded Double.nan (1 / 10), exampleSensor_embedded_view 1 ⟨0, 0⟩ 0, ?_⟩
  intro heq
  have hpos := exampleSensor_area_pos 1 exampleCastRay
  rw [heq] at hpos
  have h0 : (exampleGeometry Real.cos Real.sin exampleCastRay).area
      ⟨List.replicate 9 (⟨0, 0⟩ : Coordinate ℝ)⟩ = 0 := Polygon.area_replicate ⟨0, 0⟩ 9
  rw [h0] at hpos
  exact lt_irrefl 0 hpos

/-- The theorem of C4 as amended, at the example sensor constructed in the open. -/
theorem initial_view_is_uncast_fan_witness :
    ∃ s : Sensor ℝ,
      Sensor.Sensor (exampleGeometry Real.cos Real.sin exampleCastRay) 8 Double.nan
          (1 / 10) 1 1 ⟨0, 0⟩ 0 Surroundings.clear
        = Outcome.returned s ∧
      s.getCurrentViewPolygon (exampleGeometry Real.cos Real.sin exampleCastRay) 8
          s.getInitialPosition s.getInitialDirection Surroundings.clear
        = some s.getInitialViewPolygon :=
  (initial_view_is_uncast_fan (exampleGeometry Real.cos Real.sin exampleCastRay) 8 Double.nan
    (1 / 10) 1 1 ⟨0, 0⟩ 0 Surroundings.clear le_rfl (fun p => Polygon.area_nonneg p)).imp
    (fun _ h => ⟨h.1, h.2.2 (fun _ _ => rfl)⟩)

/-- C5 fails on the code: constructed inside a wall, the example sensor has an
initial view polygon of positive area and reads 1, not 0, after the
constructor and after a further update at the mounting pose in the same maze. -/
theorem construction_reading_is_not_zero :
    ∃ s : Sensor ℝ,
      Sensor.Sensor (exampleGeometry Real.cos Real.sin exampleCastRay) 8 Double.nan
          (1 / 10) 1 1 ⟨0, 0⟩ 0 Surroundings.embedded
        = Outcome.returned s ∧
      0 < (exampleGeometry Real.cos Real.sin exampleCastRay).area s.getInitialViewPolygon ∧
      s.read = Double.finite 1 ∧
      s.read ≠ Double.finite 0 ∧
      s.updateReading (exampleGeometry Real.cos Real.sin exampleCastRay) 8
          s.getInitialPosition s.getInitialDirection Surroundings.embedded
        = Outcome.returned s := by
  refine ⟨exampleSensor Real.cos Real.sin 1, Sensor_example_embedded Double.nan (1 / 10),
    exampleSensor_area_pos 1 exampleCastRay, rfl, ?_, exampleSensor_embedded 1 ⟨0, 0⟩ 0⟩
  intro h
  have h1 : (1 : ℝ) = 0 := Double.finite.inj h
  exact one_ne_zero h1

/-- The theorem of C5 as amended, at the example sensor constructed in the open. -/
theorem clear_construction_reads_zero_witness :
    ∃ s : Sensor ℝ,
      Sensor.Sensor (exampleGeometry Real.cos Real.sin exampleCastRay) 8 Double.nan
          (1 / 10) 1 1 ⟨0, 0⟩ 0 Surroundings.clear
        = Outcome.returned s ∧
      0 < (exampleGeometry Real.cos Real.sin exampleCastRay).area s.getInitialViewPolygon ∧
      s.read = Double.finite 0 ∧
      s.updateReading (exampleGeometry Real.cos Real.sin exampleCastRay) 8
          s.getInitialPosition s.getInitialDirection Surroundings.clear
        = Outcome.returned s ∧
      ∀ before : Double ℝ,
        Sensor.updateReading (exampleGeometry Real.cos Real.sin exampleCastRay) 8
          { s with m_currentReading := before }
          s.getInitialPosition s.getInitialDirection Surroundings.clear = Outcome.returned s :=
  clear_construction_reads_zero (exampleGeometry Real.cos Real.sin exampleCastRay) 8 Double.nan
    (1 / 10) 1 1 ⟨0, 0⟩ 0 Surroundings.clear le_rfl (exampleSensor_area_pos 0 exampleCastRay)
    (fun _ _ => rfl)

end

/-! ## The sampling loop with a rounded counter -/

section

/-- The `double` nearest to `q`, from its binary exponent and the floor of its
significand, when the rest is below one half. -/
theorem binary64_of_floor (q : ℚ) (e f : ℤ) (hq : q ≠ 0)
    (h1 : (2 : ℚ) ^ e ≤ |q|) (h2 : |q| < (2 : ℚ) ^ (e + 1))
    (hf1 : (f : ℚ) ≤ q / 2 ^ (e - 52)) (hf2 : q / 2 ^ (e - 52) - f < 1 / 2) :
    binary64 q = (f : ℚ) * 2 ^ (e - 52) := by
  have hpos : 0 < |q| := abs_pos.mpr hq
  have he : Int.log 2 |q| = e := by
    have ha : e ≤ Int.log 2 |q| := (Int.zpow_le_iff_le_log (by norm_num) hpos).mp (by exact_mod_cast h1)
    have hb : Int.log 2 |q| < e + 1 := (Int.lt_zpow_iff_log_lt (by norm_num) hpos).mp (by exact_mod_cast h2)
    omega
  have hfloor : ⌊q / 2 ^ (e - 52)⌋ = f := by
    rw [Int.floor_eq_iff]
    exact ⟨hf1, by linarith⟩
  rw [binary64, if_neg hq, he, roundTiesToEven, hfloor, if_pos hf2]

/-- The increment `2.0 / 7` of the loop as a `double`. -/
theorem step64 : binary64 (2 / 7) = 2573485501354569 / 9007199254740992 := by
  rw [binary64_of_floor (2 / 7) (-2) 5146971002709138 (by norm_num)
    (by rw [abs_of_pos (by norm_num)]; norm_num [zpow_neg])
    (by rw [abs_of_pos (by norm_num)]; norm_num [zpow_neg])
    (by norm_num [zpow_neg]) (by norm_num [zpow_neg])]
  norm_num [zpow_neg]

/-- The counter after 1 increment. -/
theorem counter64_1 : counter64 1 = -6433713753386423 / 9007199254740992 := by
  rw [counter64, counter64, step64,
    binary64_of_floor (-1 + 2573485501354569 / 9007199254740992) (-1) (-6433713753386423)
      (by norm_num)
      (by rw [abs_of_neg (by norm_num)]; norm_num [zpow_neg])
      (by rw [abs_of_neg (by norm_num)]; norm_num [zpow_neg])
      (by norm_num [zpow_neg]) (by norm_num [zpow_neg])]
  norm_num [zpow_neg]

/-- The counter after 2 increments. -/
theorem counter64_2 : counter64 2 = -1930114126015927 / 4503599627370496 := by
  rw [counter64, counter64_1, step64,
    binary64_of_floor (-6433713753386423 / 9007199254740992 + 2573485501354569 / 9007199254740992) (-2) (-7720456504063708)
      (by norm_num)
      (by rw [abs_of_neg (by norm_num)]; norm_num [zpow_neg])
      (by rw [abs_of_neg (by norm_num)]; norm_num [zpow_neg])
      (by norm_num [zpow_neg]) (by norm_num [zpow_neg])]
  norm_num [zpow_neg]

/-- The counter after 3 increments. -/
theorem counter64_3 : counter64 3 = -1286742750677285 / 9007199254740992 := by
  rw [counter64, counter64_2, step64,
    binary64_of_floor (-1930114126015927 / 4503599627370496 + 2573485501354569 / 9007199254740992) (-3) (-5146971002709140)
      (by norm_num)
      (by rw [abs_of_neg (by norm_num)]; norm_num [zpow_neg])
      (by rw [abs_of_neg (by norm_num)]; norm_num [zpow_neg])
      (by norm_num [zpow_neg]) (by norm_num [zpow_neg])]
  norm_num [zpow_neg]

/-- The counter after 4 increments. -/
theorem counter64_4 : counter64 4 = 321685687669321 / 2251799813685248 := by
  rw [counter64, counter64_3, step64,
    binary64_of_floor (-1286742750677285 / 9007199254740992 + 2573485501354569 / 9007199254740992) (-3) (5146971002709136)
      (by norm_num)
      (by rw [abs_of_pos (by norm_num)]; norm_num [zpow_neg])
      (by rw [abs_of_pos (by norm_num)]; norm_num [zpow_neg])
      (by norm_num [zpow_neg]) (by norm_num [zpow_neg])]
  norm_num [zpow_neg]

/-- The counter after 5 increments. -/
theorem counter64_5 : counter64 5 = 3860228252031853 / 9007199254740992 := by
  rw [counter64, counter64_4, step64,
    binary64_of_floor (321685687669321 / 2251799813685248 + 2573485501354569 / 9007199254740992) (-2) (7720456504063706)
      (by norm_num)
      (by rw [abs_of_pos (by norm_num)]; norm_num [zpow_neg])
      (by rw [abs_of_pos (by norm_num)]; norm_num [zpow_neg])
      (by norm_num [zpow_neg]) (by norm_num [zpow_neg])]
  norm_num [zpow_neg]

/-- The counter after 6 increments. -/
theorem counter64_6 : counter64 6 = 3216856876693211 / 4503599627370496 := by
  rw [counter64, counter64_5, step64,
    binary64_of_floor (3860228252031853 / 9007199254740992 + 2573485501354569 / 9007199254740992) (-1) (6433713753386422)
      (by norm_num)
      (by rw [abs_of_pos (by norm_num)]; norm_num [zpow_neg])
      (by rw [abs_of_pos (by norm_num)]; norm_num [zpow_neg])
      (by norm_num [zpow_neg]) (by norm_num [zpow_neg])]
  norm_num [zpow_neg]

/-- The counter after 7 increments. -/
theorem counter64_7 : counter64 7 = 9007199254740991 / 9007199254740992 := by
  rw [counter64, counter64_6, step64,
    binary64_of_floor (3216856876693211 / 4503599627370496 + 2573485501354569 / 9007199254740992) (-1) (9007199254740991)
      (by norm_num)
      (by rw [abs_of_pos (by norm_num)]; norm_num [zpow_neg])
      (by rw [abs_of_pos (by norm_num)]; norm_num [zpow_neg])
      (by norm_num [zpow_neg]) (by norm_num [zpow_neg])]
  norm_num [zpow_neg]

/-- The counter after 8 increments. -/
theorem counter64_8 : counter64 8 = 1447585594511945 / 1125899906842624 := by
  rw [counter64, counter64_7, step64,
    binary64_of_floor (9007199254740991 / 9007199254740992 + 2573485501354569 / 9007199254740992) (0) (5790342378047780)
      (by norm_num)
      (by rw [abs_of_pos (by norm_num)]; norm_num [zpow_neg])
      (by rw [abs_of_pos (by norm_num)]; norm_num [zpow_neg])
      (by norm_num [zpow_neg]) (by norm_num [zpow_neg])]
  norm_num [zpow_neg]

/-- With the counter rounded to a `double` at every step the loop of a sensor
with 8 view edge points also makes 8 passes, and each counter is within
`2^-53` of its exact value `-1 + 2k/7`. -/
theorem counter64_eight_passes :
    (∀ k : ℕ, k ≤ 7 → counter64 k ≤ 1 ∧ |counter64 k - (-1 + 2 * (k : ℚ) / 7)| ≤ 1 / 2 ^ 53) ∧
    ¬ counter64 8 ≤ 1 := by
  refine ⟨fun k hk => ?_, by rw [counter64_8]; norm_num⟩
  interval_cases k
  · rw [counter64]; norm_num
  · rw [counter64_1]; norm_num [abs_le]
  · rw [counter64_2]; norm_num [abs_le]
  · rw [counter64_3]; norm_num [abs_le]
  · rw [counter64_4]; norm_num [abs_le]
  · rw [counter64_5]; norm_num [abs_le]
  · rw [counter64_6]; norm_num [abs_le]
  · rw [counter64_7]; norm_num [abs_le]

end

end mms
